import Mathlib

/-! Vc AVX-512 backend: masks, masked memory operations, conversions.

A shallow embedding of `Vc/detail/avx512.h` and of the accelerator stub
`cuda/vector.h`.

* A vector register (`__m128i`, `__m256i`, `__m512i`, and the storage
  types wrapping them) is its bit pattern, a natural number; lane `j` of
  width `w` is the bit field `[w*j + w - 1 : w*j]`.
* A mask register (`__mmask8` .. `__mmask64`, `mask_member_type<N>`) is the
  natural number whose bit `i` is the predicate of lane `i`.
* Memory behind a `bool *` is a map from byte offset to byte.
* The capability macros are the boolean fields of `Caps`.

The Intel intrinsics are transcribed from the operation pseudo-code of the
Intel Intrinsics Guide.
-/

namespace Vc

/-! ## Registers, lanes, memory -/

/-- One byte of memory. -/
abbrev Byte := Fin 256

/-- Memory as seen through a pointer: byte offset to byte. -/
abbrev Mem := Nat → Byte

/-- Truncation of a lane value to one byte. -/
def toByte (x : Nat) : Byte := ⟨x % 256, Nat.mod_lt x (by decide)⟩

/-- Lane `j` of width `w` of the register `x`: the bits `x[w*j + w - 1 : w*j]`. -/
def lane (w j x : Nat) : Nat := (x >>> (w * j)) % 2 ^ w

/-- The register of `n` lanes of width `w` whose lane `j` is `f j`
truncated to `w` bits. -/
def pack (w : Nat) : Nat → (Nat → Nat) → Nat
  | 0, _ => 0
  | n + 1, f => pack w n f ||| ((f n % 2 ^ w) <<< (w * n))

/-- The mask register of `n` lanes whose bit `j` is `p j`. -/
def maskOf (n : Nat) (p : Nat → Bool) : Nat :=
  pack 1 n (fun j => if p j then 1 else 0)

/-- Bitwise complement `~x` of an unsigned value of `w` bits. -/
def bitNot (w x : Nat) : Nat := 2 ^ w - 1 - x % 2 ^ w

/-- Compile-time capabilities: `Vc_HAVE_AVX512VL`, `Vc_HAVE_AVX512BW`,
`__x86_64__`. -/
structure Caps where
  avx512vl : Bool
  avx512bw : Bool
  x86_64 : Bool
  deriving DecidableEq

/-! ## Intel intrinsics -/

/-- Masked byte load of `n` lanes: lane `j` is `mem[j]` where `k[j]` is set
and lane `j` of `src` otherwise. -/
def mask_loadu_epi8 (n : Nat) (src k : Nat) (mem : Mem) : Nat :=
  pack 8 n (fun j => if k.testBit j then (mem j).val else lane 8 j src)

/-- Intrinsic `_mm_mask_loadu_epi8` (16 byte lanes). -/
def _mm_mask_loadu_epi8 (src k : Nat) (mem : Mem) : Nat := mask_loadu_epi8 16 src k mem

/-- Intrinsic `_mm256_mask_loadu_epi8` (32 byte lanes). -/
def _mm256_mask_loadu_epi8 (src k : Nat) (mem : Mem) : Nat := mask_loadu_epi8 32 src k mem

/-- Intrinsic `_mm512_mask_loadu_epi8` (64 byte lanes). -/
def _mm512_mask_loadu_epi8 (src k : Nat) (mem : Mem) : Nat := mask_loadu_epi8 64 src k mem

/-- Byte test of `n` lanes: bit `j` is set iff `a[j] AND b[j]` is non-zero. -/
def test_epi8_mask (n : Nat) (a b : Nat) : Nat :=
  maskOf n (fun j => decide (lane 8 j a &&& lane 8 j b ≠ 0))

/-- Intrinsic `_mm_test_epi8_mask`. -/
def _mm_test_epi8_mask (a b : Nat) : Nat := test_epi8_mask 16 a b

/-- Intrinsic `_mm256_test_epi8_mask`. -/
def _mm256_test_epi8_mask (a b : Nat) : Nat := test_epi8_mask 32 a b

/-- Intrinsic `_mm512_test_epi8_mask`. -/
def _mm512_test_epi8_mask (a b : Nat) : Nat := test_epi8_mask 64 a b

/-- Zero-masked broadcast into `n` lanes of width `w`: lane `j` is `a`
where `k[j]` is set and `0` otherwise. -/
def maskz_set1 (w n : Nat) (k a : Nat) : Nat :=
  pack w n (fun j => if k.testBit j then a else 0)

/-- Intrinsic `_mm_maskz_set1_epi8` (16 lanes of 8 bits). -/
def _mm_maskz_set1_epi8 (k a : Nat) : Nat := maskz_set1 8 16 k a

/-- Intrinsic `_mm256_maskz_set1_epi8` (32 lanes of 8 bits). -/
def _mm256_maskz_set1_epi8 (k a : Nat) : Nat := maskz_set1 8 32 k a

/-- Intrinsic `_mm512_maskz_set1_epi8` (64 lanes of 8 bits). -/
def _mm512_maskz_set1_epi8 (k a : Nat) : Nat := maskz_set1 8 64 k a

/-- Intrinsic `_mm_maskz_set1_epi16` (8 lanes of 16 bits). -/
def _mm_maskz_set1_epi16 (k a : Nat) : Nat := maskz_set1 16 8 k a

/-- Intrinsic `_mm256_maskz_set1_epi32` (8 lanes of 32 bits). -/
def _mm256_maskz_set1_epi32 (k a : Nat) : Nat := maskz_set1 32 8 k a

/-- Intrinsic `_mm512_maskz_set1_epi32` (16 lanes of 32 bits). -/
def _mm512_maskz_set1_epi32 (k a : Nat) : Nat := maskz_set1 32 16 k a

/-- Masked truncating store: for each of the `n` lanes of width `w` of `a`
whose bit in `k` is set, the low byte of the lane is written to `mem[j]`;
no other byte is written. -/
def mask_cvt_storeu_epi8 (w n : Nat) (mem : Mem) (k a : Nat) : Mem :=
  fun j => if j < n ∧ k.testBit j = true then toByte (lane w j a) else mem j

/-- Intrinsic `_mm_mask_cvtepi16_storeu_epi8` (8 lanes of 16 bits). -/
def _mm_mask_cvtepi16_storeu_epi8 (mem : Mem) (k a : Nat) : Mem :=
  mask_cvt_storeu_epi8 16 8 mem k a

/-- Intrinsic `_mm256_mask_cvtepi32_storeu_epi8` (8 lanes of 32 bits). -/
def _mm256_mask_cvtepi32_storeu_epi8 (mem : Mem) (k a : Nat) : Mem :=
  mask_cvt_storeu_epi8 32 8 mem k a

/-- Intrinsic `_mm512_mask_cvtepi32_storeu_epi8` (16 lanes of 32 bits). -/
def _mm512_mask_cvtepi32_storeu_epi8 (mem : Mem) (k a : Nat) : Mem :=
  mask_cvt_storeu_epi8 32 16 mem k a

/-- Intrinsic `_mm_mask_storeu_epi8` (16 byte lanes). -/
def _mm_mask_storeu_epi8 (mem : Mem) (k a : Nat) : Mem :=
  mask_cvt_storeu_epi8 8 16 mem k a

/-- Intrinsic `_mm256_mask_storeu_epi8` (32 byte lanes). -/
def _mm256_mask_storeu_epi8 (mem : Mem) (k a : Nat) : Mem :=
  mask_cvt_storeu_epi8 8 32 mem k a

/-- Intrinsic `_mm512_mask_storeu_epi8` (64 byte lanes). -/
def _mm512_mask_storeu_epi8 (mem : Mem) (k a : Nat) : Mem :=
  mask_cvt_storeu_epi8 8 64 mem k a

/-- Parallel bit deposit over `w` bits, the loop of the Intel pseudo-code:
`m` runs over the bit positions; where `mask[m]` is set the next unused low
bit `a[k]` is written to `dst[m]`. The arguments are the number of positions
left, `m`, `k` and `dst`. -/
def pdepLoop (a mask : Nat) : Nat → Nat → Nat → Nat → Nat
  | 0, _, _, dst => dst
  | fuel + 1, m, k, dst =>
    if mask.testBit m then
      pdepLoop a mask fuel (m + 1) (k + 1) (dst ||| ((if a.testBit k then 1 else 0) <<< m))
    else
      pdepLoop a mask fuel (m + 1) k dst

/-- Intrinsic `_pdep_u64`. -/
def _pdep_u64 (a mask : Nat) : Nat := pdepLoop a mask 64 0 0 0

/-- Intrinsic `_pdep_u32`. -/
def _pdep_u32 (a mask : Nat) : Nat := pdepLoop a mask 32 0 0 0

/-! ## Library helpers used by `avx512_mask_impl` -/

/-- Modelled from the spec: `zero<V>()` of `x86/intrinsics.h`, the register
with every bit clear. -/
def zero : Nat := 0

/-- Modelled from the spec: `lo256` of `x86/intrinsics.h`, the low 256 bits of
a 512-bit register. -/
def lo256 (x : Nat) : Nat := x % 2 ^ 256

/-- Modelled from the spec: `make_storage<T>(args...)` of `storage.h`, the
register whose lanes of `w` bits are the arguments in order. -/
def make_storage (w : Nat) (args : List Nat) : Nat :=
  pack w args.length (fun j => args.getD j 0)

/-- Modelled from the spec: `builtin_store<Bytes>(v, mem, f)` of `storage.h`
("then store the resulting byte vector"): the first `bytes` bytes of the
register `v` are copied to `mem[0 .. bytes)`. The alignment flag `f` does not
influence the bytes written and is dropped. -/
def builtin_store (bytes : Nat) (v : Nat) (mem : Mem) : Mem :=
  fun j => if j < bytes then toByte (lane 8 j v) else mem j

/-- Search for the lowest set bit of `k`, starting at position `i`. -/
def firstbitLoop (k : Nat) : Nat → Nat → Nat
  | 0, i => i
  | fuel + 1, i => if k.testBit i then i else firstbitLoop k fuel (i + 1)

/-- Modelled from the spec: `firstbit(k)`, the index of the lowest set bit of
a non-zero `k` ("lowest-set-bit iteration"). -/
def firstbit (k : Nat) : Nat := firstbitLoop k k 0

/-- The loop of `bit_iteration`: while `k` is non-zero, call `f` on the index
of its lowest set bit and clear that bit (`k &= k - 1`). The first argument
bounds the number of rounds. -/
def bit_iteration_loop {σ : Type} (f : Nat → σ → σ) : Nat → Nat → σ → σ
  | 0, _, s => s
  | fuel + 1, k, s =>
    if k = 0 then s
    else bit_iteration_loop f fuel (k &&& (k - 1)) (f (firstbit k) s)

/-- Modelled from the spec: `detail::bit_iteration(k, f)` ("iterate only the
lane indices where `mask` is set (lowest-set-bit iteration)"). The callback
mutates captured state, which is threaded through as `s`. Every round clears
one bit of `k`, so `k` rounds always suffice. -/
def bit_iteration {σ : Type} (k : Nat) (f : Nat → σ → σ) (s : σ) : σ :=
  bit_iteration_loop f k k s

/-- Modelled from the spec: `Storage<bool, N>::set(i, x)` of `storage.h`
("overwrite the corresponding lane of `merge`"): bit `i` of the mask becomes
`x`, every other bit is kept. -/
def mask_member_type.set (m i : Nat) (x : Bool) : Nat :=
  if x then m ||| (1 <<< i) else m ^^^ (m &&& (1 <<< i))

/-! ## `avx512_mask_impl::masked_load` -/

/-- Overload `masked_load(mask_member_type<8>, ...)` under
`Vc_HAVE_AVX512VL && Vc_HAVE_AVX512BW`. The operands of `&`, `~`, `|` are
promoted to 32-bit `int`; the return conversion truncates to 8 bits. -/
def masked_load_8 (merge mask : Nat) (mem : Mem) : Nat :=
  let a := _mm_mask_loadu_epi8 zero mask mem
  ((merge &&& bitNot 32 mask) ||| _mm_test_epi8_mask a a) % 2 ^ 8

/-- Overload `masked_load(mask_member_type<16>, ...)` under
`Vc_HAVE_AVX512VL && Vc_HAVE_AVX512BW`. -/
def masked_load_16 (merge mask : Nat) (mem : Mem) : Nat :=
  let a := _mm_mask_loadu_epi8 zero mask mem
  ((merge &&& bitNot 32 mask) ||| _mm_test_epi8_mask a a) % 2 ^ 16

/-- Overload `masked_load(mask_member_type<32>, ...)` under
`Vc_HAVE_AVX512VL && Vc_HAVE_AVX512BW`. -/
def masked_load_32 (merge mask : Nat) (mem : Mem) : Nat :=
  let a := _mm256_mask_loadu_epi8 zero mask mem
  ((merge &&& bitNot 32 mask) ||| _mm256_test_epi8_mask a a) % 2 ^ 32

/-- Overload `masked_load(mask_member_type<64>, ...)` under
`Vc_HAVE_AVX512VL && Vc_HAVE_AVX512BW`. -/
def masked_load_64 (merge mask : Nat) (mem : Mem) : Nat :=
  let a := _mm512_mask_loadu_epi8 zero mask mem
  ((merge &&& bitNot 64 mask) ||| _mm512_test_epi8_mask a a) % 2 ^ 64

/-- The `#else` template `masked_load<N>`: for every set bit `i` of `mask`,
`merge.set(i, mem[i])`; `mem[i]` is read as a `bool`, true iff the byte is
non-zero. -/
def masked_load_fallback (merge mask : Nat) (mem : Mem) : Nat :=
  bit_iteration mask (fun i m => mask_member_type.set m i (decide (mem i ≠ 0))) merge

/-- Dispatch of `avx512_mask_impl::masked_load` for masks of `N` lanes:
`none` when no overload is declared for `N`. -/
def masked_load (c : Caps) (N : Nat) (merge mask : Nat) (mem : Mem) : Option Nat :=
  if c.avx512vl && c.avx512bw then
    if N = 8 then some (masked_load_8 merge mask mem)
    else if N = 16 then some (masked_load_16 merge mask mem)
    else if N = 32 then some (masked_load_32 merge mask mem)
    else if N = 64 then some (masked_load_64 merge mask mem)
    else none
  else
    if N = 8 ∨ N = 16 ∨ N = 32 ∨ N = 64 then some (masked_load_fallback merge mask mem)
    else none

/-! ## `avx512_mask_impl::store` -/

/-- The register handed to `builtin_store<8>` by `store(..., size_tag<8>)`,
one alternative per preprocessor branch. -/
def store_8_bytes (c : Caps) (v : Nat) : Nat :=
  if c.avx512vl && c.avx512bw then
    _mm_maskz_set1_epi8 v 1
  else if c.x86_64 then
    make_storage 64 [_pdep_u64 v 0x0101010101010101, 0]
  else
    make_storage 32 [_pdep_u32 v 0x01010101, _pdep_u32 (v >>> 4) 0x01010101]

/-- Overload `store(mask_member_type<8> v, bool *mem, F, size_tag<8>)`. -/
def store_8 (c : Caps) (v : Nat) (mem : Mem) : Mem :=
  builtin_store 8 (store_8_bytes c v) mem

/-- Overload `store(mask_member_type<16> v, bool *mem, F, size_tag<16>)`.
In the `#else` branch `~__mmask16()` is computed on the promoted `int` and
converted back to 16 bits. -/
def store_16 (c : Caps) (v : Nat) (mem : Mem) : Mem :=
  if c.avx512vl && c.avx512bw then
    builtin_store 16 (_mm_maskz_set1_epi8 v 1) mem
  else
    _mm512_mask_cvtepi32_storeu_epi8 mem (bitNot 32 0 % 2 ^ 16)
      (_mm512_maskz_set1_epi32 v 1)

/-- Overload `store(mask_member_type<32> v, bool *mem, F, size_tag<32>)`,
declared under `Vc_HAVE_AVX512BW`. -/
def store_32 (c : Caps) (v : Nat) (mem : Mem) : Mem :=
  if c.avx512vl then
    builtin_store 32 (_mm256_maskz_set1_epi8 v 1) mem
  else
    builtin_store 32 (lo256 (_mm512_maskz_set1_epi8 v 1)) mem

/-- Overload `store(mask_member_type<64> v, bool *mem, F, size_tag<64>)`,
declared under `Vc_HAVE_AVX512BW`. -/
def store_64 (v : Nat) (mem : Mem) : Mem :=
  builtin_store 64 (_mm512_maskz_set1_epi8 v 1) mem

/-- Dispatch of `avx512_mask_impl::store` for masks of `N` lanes: `none`
when no overload is declared for `N` under the capabilities `c`. -/
def store (c : Caps) (N : Nat) (v : Nat) (mem : Mem) : Option Mem :=
  if N = 8 then some (store_8 c v mem)
  else if N = 16 then some (store_16 c v mem)
  else if N = 32 then (if c.avx512bw then some (store_32 c v mem) else none)
  else if N = 64 then (if c.avx512bw then some (store_64 v mem) else none)
  else none

/-! ## `avx512_mask_impl::masked_store` -/

/-- Overload `masked_store(mask_member_type<8> v, bool *mem, F, mask_member_type<8> k)`. -/
def masked_store_8 (c : Caps) (v : Nat) (mem : Mem) (k : Nat) : Mem :=
  if c.avx512vl && c.avx512bw then
    _mm_mask_cvtepi16_storeu_epi8 mem k (_mm_maskz_set1_epi16 v 1)
  else if c.avx512vl then
    _mm256_mask_cvtepi32_storeu_epi8 mem k (_mm256_maskz_set1_epi32 v 1)
  else
    _mm512_mask_cvtepi32_storeu_epi8 mem k (_mm512_maskz_set1_epi32 v 1)

/-- Overload `masked_store(mask_member_type<16> v, bool *mem, F, mask_member_type<16> k)`. -/
def masked_store_16 (c : Caps) (v : Nat) (mem : Mem) (k : Nat) : Mem :=
  if c.avx512vl && c.avx512bw then
    _mm_mask_storeu_epi8 mem k (_mm_maskz_set1_epi8 v 1)
  else
    _mm512_mask_cvtepi32_storeu_epi8 mem k (_mm512_maskz_set1_epi32 v 1)

/-- Overload `masked_store(mask_member_type<32> v, bool *mem, F, mask_member_type<32> k)`,
declared under `Vc_HAVE_AVX512BW`. Both branches are transcribed as written;
the `#else` branch stores through `_mm256_mask_storeu_epi8`, an intrinsic of
AVX512VL, in the configuration without `Vc_HAVE_AVX512VL`. -/
def masked_store_32 (c : Caps) (v : Nat) (mem : Mem) (k : Nat) : Mem :=
  if c.avx512vl then
    _mm256_mask_storeu_epi8 mem k (_mm256_maskz_set1_epi8 v 1)
  else
    _mm256_mask_storeu_epi8 mem k (lo256 (_mm512_maskz_set1_epi8 v 1))

/-- Overload `masked_store(mask_member_type<64> v, bool *mem, F, mask_member_type<64> k)`,
declared under `Vc_HAVE_AVX512BW`. -/
def masked_store_64 (v : Nat) (mem : Mem) (k : Nat) : Mem :=
  _mm512_mask_storeu_epi8 mem k (_mm512_maskz_set1_epi8 v 1)

/-- Dispatch of `avx512_mask_impl::masked_store` for masks of `N` lanes:
`none` when no overload is declared for `N` under the capabilities `c`, and
also for 32 lanes under `Vc_HAVE_AVX512BW` without `Vc_HAVE_AVX512VL`, where
the `#else` branch of the overload calls the AVX512VL intrinsic
`_mm256_mask_storeu_epi8`, which that configuration does not provide, so
that the call does not build. -/
def masked_store (c : Caps) (N : Nat) (v : Nat) (mem : Mem) (k : Nat) : Option Mem :=
  if N = 8 then some (masked_store_8 c v mem k)
  else if N = 16 then some (masked_store_16 c v mem k)
  else if N = 32 then
    (if c.avx512bw then
      (if c.avx512vl then some (masked_store_32 c v mem k) else none)
    else none)
  else if N = 64 then (if c.avx512bw then some (masked_store_64 v mem k) else none)
  else none

/-! ## Element types -/

/-- The arithmetic element types named in `avx512.h`. -/
inductive ElemType
  | double | float | llong | ullong | long | ulong | int | uint
  | short | ushort | schar | uchar
  deriving DecidableEq

/-- Modelled from the spec: `sizeof(T)` of the element types, which the
compiler supplies ("double, float, 64/32-bit signed+unsigned integers, and
... 16/8-bit signed+unsigned integers"); `long` counts among the 64-bit
integers, as on the LP64 targets. -/
def sizeof : ElemType → Nat
  | .double => 8 | .float => 4
  | .llong => 8 | .ullong => 8 | .long => 8 | .ulong => 8
  | .int => 4 | .uint => 4
  | .short => 2 | .ushort => 2 | .schar => 1 | .uchar => 1

/-- Floating-point element types. -/
def ElemType.isFloat : ElemType → Bool
  | .double => true | .float => true | _ => false

/-- Lane count `64 / sizeof(T)` of an AVX-512 register of `T`. -/
def simd_size (T : ElemType) : Nat := 64 / sizeof T

/-- Lane width in bits of an AVX-512 register of `T`. -/
def laneBits (T : ElemType) : Nat := 8 * sizeof T

/-! ## `avx512_simd_impl::negate` -/

/-- IEEE-754 quiet equality (`_CMP_EQ_OQ`) on the bit patterns of two
floating-point lanes of `w` bits with `m` mantissa bits: false when either
operand is a NaN, true when both are zeros of any sign, otherwise equality
of the bit patterns. -/
def ieee_eq (w m : Nat) (a b : Nat) : Bool :=
  let isNaN := fun x : Nat => decide ((x % 2 ^ (w - 1)) / 2 ^ m = 2 ^ (w - 1 - m) - 1) &&
    decide (x % 2 ^ m ≠ 0)
  let isZero := fun x : Nat => decide (x % 2 ^ (w - 1) = 0)
  !isNaN a && !isNaN b && (decide (a = b) || (isZero a && isZero b))

/-- Modelled from the spec: `equal_to(x, y)` of the implementation base class
for this ABI ("comparisons natively materialize predicate registers"): the
bitmask whose bit `i` is the comparison `x[i] == y[i]` of lane `i`, integer
equality for the integer types and IEEE-754 equality for `float`, `double`. -/
def equal_to (T : ElemType) (x y : Nat) : Nat :=
  maskOf (simd_size T) (fun i =>
    match T with
    | .double => ieee_eq 64 52 (lane 64 i x) (lane 64 i y)
    | .float => ieee_eq 32 23 (lane 32 i x) (lane 32 i y)
    | _ => decide (lane (laneBits T) i x = lane (laneBits T) i y))

/-- The value-initialised register `simd_member_type<T>()`: all lanes zero. -/
def simd_member_type_zero (_T : ElemType) : Nat := 0

/-- Function `avx512_simd_impl::negate`: `equal_to(x, simd_member_type<T>())`. -/
def negate (T : ElemType) (x : Nat) : Nat :=
  equal_to T x (simd_member_type_zero T)

/-! ## Masked compound assignment -/

/-- The operators of the table: `std::plus`, `std::minus`. -/
inductive Op
  | plus | minus
  deriving DecidableEq

/-- The instruction suffixes of the table. -/
inductive Suffix
  | pd | ps | epi64 | epi32 | epi16 | epi8
  deriving DecidableEq

/-- Lane width in bits of the instructions with a given suffix. -/
def Suffix.bits : Suffix → Nat
  | .pd => 64 | .ps => 32 | .epi64 => 64 | .epi32 => 32 | .epi16 => 16 | .epi8 => 8

/-- The floating-point addition and subtraction of the hardware, on the bit
patterns of binary64 and binary32 values, with results of 64 and 32 bits.
They are parameters of the model: nothing below depends on what they
compute. -/
structure FloatArith where
  add64 : Nat → Nat → Nat
  sub64 : Nat → Nat → Nat
  add32 : Nat → Nat → Nat
  sub32 : Nat → Nat → Nat
  add64_lt : ∀ x y, add64 x y < 2 ^ 64
  sub64_lt : ∀ x y, sub64 x y < 2 ^ 64
  add32_lt : ∀ x y, add32 x y < 2 ^ 32
  sub32_lt : ∀ x y, sub32 x y < 2 ^ 32

/-- A stand-in arithmetic for evaluating the model on concrete integer
inputs: every floating-point operation returns the pattern of `+0.0`. -/
def zeroFloatArith : FloatArith :=
  ⟨fun _ _ => 0, fun _ _ => 0, fun _ _ => 0, fun _ _ => 0,
    fun _ _ => Nat.two_pow_pos 64, fun _ _ => Nat.two_pow_pos 64,
    fun _ _ => Nat.two_pow_pos 32, fun _ _ => Nat.two_pow_pos 32⟩

/-- Wrapping addition of `w`-bit integers. -/
def wrapAdd (w x y : Nat) : Nat := (x + y) % 2 ^ w

/-- Wrapping subtraction of `w`-bit integers. -/
def wrapSub (w x y : Nat) : Nat := (x + (2 ^ w - y % 2 ^ w)) % 2 ^ w

/-- What the instruction `_mm512_mask_<op>_<suffix>` computes in one selected
lane from the lanes of its operands `a` and `b`. -/
def laneOp (fa : FloatArith) : Op → Suffix → Nat → Nat → Nat
  | .plus, .pd => fa.add64
  | .minus, .pd => fa.sub64
  | .plus, .ps => fa.add32
  | .minus, .ps => fa.sub32
  | .plus, s => wrapAdd s.bits
  | .minus, s => wrapSub s.bits

/-- Intrinsics `_mm512_mask_add_*` and `_mm512_mask_sub_*`
(`src, k, a, b`): lane `j` is `a[j] op b[j]` where `k[j]` is set and lane
`j` of `src` otherwise. -/
def _mm512_mask_arith (fa : FloatArith) (op : Op) (s : Suffix) (src k a b : Nat) : Nat :=
  pack s.bits (512 / s.bits) (fun j =>
    if k.testBit j then laneOp fa op s (lane s.bits j a) (lane s.bits j b)
    else lane s.bits j src)

/-- The rows of `Vc_MASKED_CASSIGN_SPECIALIZATION`: the instruction suffix
given to each element type; the 16-bit and 8-bit rows exist only under
`Vc_HAVE_FULL_AVX512_ABI` (`full`). The rows are the same for `std::plus`
and `std::minus`. -/
def cassign_suffix (full : Bool) : ElemType → Option Suffix
  | .double => some .pd
  | .float => some .ps
  | .llong => some .epi64
  | .ullong => some .epi64
  | .long => some .epi64
  | .ulong => some .epi64
  | .int => some .epi32
  | .uint => some .epi32
  | .short => if full then some .epi16 else none
  | .ushort => if full then some .epi16 else none
  | .schar => if full then some .epi8 else none
  | .uchar => if full then some .epi8 else none

/-- The specialisations of `generic_simd_impl<__avx512>::masked_cassign`:
`lhs = _mm512_mask_<op>_<suffix>(lhs, k, lhs, rhs)`. The result is the new
value of `lhs`; `none` when the table has no row for `T`. -/
def masked_cassign (fa : FloatArith) (full : Bool) (op : Op) (T : ElemType)
    (k lhs rhs : Nat) : Option Nat :=
  match cassign_suffix full T with
  | some s => some (_mm512_mask_arith fa op s lhs k lhs rhs)
  | none => none

/-- The C++ operator `op` (`std::plus<T>`, `std::minus<T>`) on two values of
the element type `T`, as bit patterns: wrapping for the integer types, the
hardware operation for `float` and `double`. -/
def applyOp (fa : FloatArith) (op : Op) (T : ElemType) (x y : Nat) : Nat :=
  match op, T with
  | .plus, .double => fa.add64 x y
  | .minus, .double => fa.sub64 x y
  | .plus, .float => fa.add32 x y
  | .minus, .float => fa.sub32 x y
  | .plus, _ => wrapAdd (laneBits T) x y
  | .minus, _ => wrapSub (laneBits T) x y

/-! ## The conversion layer: overloads and their `static_assert`s -/

/-- The register-width ABIs taking part in the converters of `avx512.h`. -/
inductive Abi
  | scalar | sse | avx | avx512
  deriving DecidableEq

/-- Lane count of one argument of ABI `a` holding elements of `sz` bytes. -/
def Abi.lanes (a : Abi) (sz : Nat) : Nat :=
  match a with
  | .scalar => 1
  | .sse => 16 / sz
  | .avx => 32 / sz
  | .avx512 => 64 / sz

/-- The `simd_converter` specialisations of `avx512.h` that declare
`operator()` between distinct element types or ABIs. -/
inductive Converter
  | scalar_avx512 | sse_avx512 | avx512_sse | avx_avx512 | avx512_avx | avx512_avx512
  deriving DecidableEq

/-- Source ABI of a converter. -/
def Converter.src : Converter → Abi
  | .scalar_avx512 => .scalar
  | .sse_avx512 => .sse
  | .avx512_sse => .avx512
  | .avx_avx512 => .avx
  | .avx512_avx => .avx512
  | .avx512_avx512 => .avx512

/-- Destination ABI of a converter. -/
def Converter.dst : Converter → Abi
  | .scalar_avx512 => .avx512
  | .sse_avx512 => .avx512
  | .avx512_sse => .sse
  | .avx_avx512 => .avx512
  | .avx512_avx => .avx
  | .avx512_avx512 => .avx512

/-- The `static_assert` condition of the `operator()` overload of arity `n`
of a converter, as a function of `sizeof(From)` and `sizeof(To)`: `none` when
the converter declares no overload of that arity, and the constant `true`
for an overload without `static_assert`. -/
def static_assert_cond : Converter → Nat → Option (Nat → Nat → Bool)
  | .scalar_avx512, 1 => some (fun _ _ => true)
  | .scalar_avx512, 2 => some (fun _ _ => true)
  | .scalar_avx512, 4 => some (fun _ _ => true)
  | .scalar_avx512, 8 => some (fun _ _ => true)
  | .scalar_avx512, 16 => some (fun _ _ => true)
  | .scalar_avx512, 32 => some (fun _ _ => true)
  | .scalar_avx512, 64 => some (fun _ _ => true)
  | .sse_avx512, 1 => some (fun _ _ => true)
  | .sse_avx512, 2 => some (fun sF sT => decide (2 * sF ≥ sT))
  | .sse_avx512, 4 => some (fun sF sT => decide (sF ≥ 1 * sT))
  | .sse_avx512, 8 => some (fun sF sT => decide (sF ≥ 2 * sT))
  | .sse_avx512, 16 => some (fun sF sT => decide (sF ≥ 4 * sT))
  | .sse_avx512, 32 => some (fun sF sT => decide (sF ≥ 8 * sT))
  | .avx512_sse, 1 => some (fun _ _ => true)
  | .avx512_sse, 2 => some (fun sF sT => decide (sF ≥ 8 * sT))
  | .avx_avx512, 1 => some (fun _ _ => true)
  | .avx_avx512, 2 => some (fun sF sT => decide (sF ≥ 1 * sT))
  | .avx_avx512, 4 => some (fun sF sT => decide (sF ≥ 2 * sT))
  | .avx_avx512, 8 => some (fun sF sT => decide (sF ≥ 4 * sT))
  | .avx_avx512, 16 => some (fun sF sT => decide (sF ≥ 8 * sT))
  | .avx512_avx, 1 => some (fun _ _ => true)
  | .avx512_avx, 2 => some (fun sF sT => decide (sF ≥ 4 * sT))
  | .avx512_avx, 4 => some (fun sF sT => decide (sF ≥ 8 * sT))
  | .avx512_avx512, 1 => some (fun _ _ => true)
  | .avx512_avx512, 2 => some (fun sF sT => decide (sF ≥ 2 * sT))
  | .avx512_avx512, 4 => some (fun sF sT => decide (sF ≥ 4 * sT))
  | .avx512_avx512, 8 => some (fun sF sT => decide (sF ≥ 8 * sT))
  | _, _ => none

/-- A call of `operator()` with `n` arguments passes the compile-time
assertions of `avx512.h`: an overload of arity `n` is declared and its
`static_assert`, if any, holds. -/
def accepts (cv : Converter) (n sF sT : Nat) : Bool :=
  match static_assert_cond cv n with
  | some cond => cond sF sT
  | none => false

/-! ## Specification-side helpers -/

/-- Index `j` is the lowest set bit of `k`. -/
def IsLowestBit (k j : Nat) : Prop :=
  k.testBit j = true ∧ ∀ i, i < j → k.testBit i = false

/-- The boolean-array image of the `N`-lane mask `v` written over `mem`: one
byte per lane, `0x01` for a set bit and `0x00` for a clear one; bytes from
offset `N` on are those of `mem`. -/
def storedBytes (N v : Nat) (mem : Mem) : Mem :=
  fun j => if j < N then (if v.testBit j = true then 1 else 0) else mem j

/-- The `N`-lane mask whose bit `i` is `mem[i] != 0` where `mask[i]` is set
and `merge[i]` where it is clear. -/
def loadedMask (N merge mask : Nat) (mem : Mem) : Nat :=
  maskOf N (fun i => if mask.testBit i = true then decide (mem i ≠ 0) else merge.testBit i)

/-! ## Scalar conversions and the identity conversion -/

/-- The conversion `static_cast<To>` applied to a value of the source element
type, on bit patterns; its result is a value of `To`. It is a parameter of
the model: nothing below depends on what it computes. -/
structure StaticCast (To : ElemType) where
  cast : Nat → Nat
  cast_lt : ∀ x, cast x < 2 ^ laneBits To

/-- A stand-in `static_cast` for evaluating the model on concrete inputs:
truncation to the width of `To`. -/
def truncCast (To : ElemType) : StaticCast To :=
  ⟨fun x => x % 2 ^ laneBits To, fun _ => Nat.mod_lt _ (Nat.two_pow_pos _)⟩

/-- The indices `0, 1, ..., n - 1` of `std::make_index_sequence<n>`. -/
def make_index_sequence (n : Nat) : List Nat := List.range n

/-- Member `impl` of `simd_converter<From, __avx512, To, scalar>`:
`{static_cast<To>(a[Indexes])...}`, one element per index in the order of the
index sequence; `a[i]` is lane `i` of the register. -/
def avx512_to_scalar.impl (From To : ElemType) (sc : StaticCast To) (indexes : List Nat)
    (a : Nat) : List Nat :=
  indexes.map (fun i => sc.cast (lane (laneBits From) i a))

/-- Member `all` of `simd_converter<From, __avx512, To, scalar>`:
`impl(std::make_index_sequence<Arg::width>(), a)`, where `Arg::width` is the
lane count of `avx512_simd_member_type<From>`. -/
def avx512_to_scalar.all (From To : ElemType) (sc : StaticCast To) (a : Nat) : List Nat :=
  avx512_to_scalar.impl From To sc (make_index_sequence (simd_size From)) a

/-- Modelled from the spec: `Storage<T, N>::set(i, x)` of `storage.h` for a
vector register of `N` lanes of `w` bits: lane `i` becomes `x`, every other
lane is kept. An index outside the register has no defined result. -/
def simd_member_type.set (w N : Nat) (r i x : Nat) : Option Nat :=
  if i < N then some (pack w N (fun j => if j = i then x else lane w j r)) else none

/-- The statements `r.set(i, static_cast<To>(x_i)); r.set(i + 1, ...); ...`
of one `operator()` overload, for the arguments still to be stored and the
next index `i`. -/
def set_all (To : ElemType) (sc : StaticCast To) : List Nat → Nat → Nat → Option Nat
  | [], _, r => some r
  | x :: xs, i, r =>
    match simd_member_type.set (laneBits To) (simd_size To) r i (sc.cast x) with
    | some r' => set_all To sc xs (i + 1) r'
    | none => none

/-- The `operator()` overloads of `simd_converter<From, scalar, To, __avx512>`,
selected by the number of arguments. Arities 1, 2, 4, 8, 16, 32 start from
the value-initialised register `R r{}` and call `r.set` once per argument in
order; arity 64 calls the constructor `R(x0, ..., x63)`, which exists for a
register of 64 lanes. `none` when no overload has that arity or the call has
no defined result. -/
def scalar_to_avx512 (To : ElemType) (sc : StaticCast To) (args : List Nat) : Option Nat :=
  if args.length = 1 ∨ args.length = 2 ∨ args.length = 4 ∨ args.length = 8 ∨
      args.length = 16 ∨ args.length = 32 then
    set_all To sc args 0 0
  else if args.length = 64 then
    if simd_size To = 64 then
      some (pack (laneBits To) 64 (fun j => sc.cast (args.getD j 0)))
    else none
  else none

/-- The `operator()` of `simd_converter<T, __avx512, T, __avx512>`:
`return x`. -/
def avx512_identity (x : Nat) : Nat := x

/-! ## Specification-side helpers for the later claims -/

/-- The unmasked lane-wise `op(lhs, rhs)` on registers of `T`. -/
def lanewise (fa : FloatArith) (op : Op) (T : ElemType) (lhs rhs : Nat) : Nat :=
  pack (laneBits T) (simd_size T)
    (fun j => applyOp fa op T (lane (laneBits T) j lhs) (lane (laneBits T) j rhs))

/-- The bit pattern `x` of a binary floating-point value of `w` bits with `m`
mantissa bits is a NaN: the exponent field is all ones and the mantissa is
not zero; the sign bit is free. -/
def IsNaN (w m x : Nat) : Prop :=
  (x / 2 ^ m) % 2 ^ (w - 1 - m) = 2 ^ (w - 1 - m) - 1 ∧ x % 2 ^ m ≠ 0

/-- The bit pattern `x` of `w` bits is `+0.0` or `-0.0`. -/
def IsSignedZero (w x : Nat) : Prop := x = 0 ∨ x = 2 ^ (w - 1)

/-- The unsigned element type of the same width as an integer element type;
the floating-point types are left as they are. -/
def unsignedOf : ElemType → ElemType
  | .llong => .ullong
  | .long => .ulong
  | .int => .uint
  | .short => .ushort
  | .schar => .uchar
  | T => T

/-! ## The accelerator stub `CUDA::Vector<T>` of `cuda/vector.h` -/

namespace CUDA

/-- A contiguous object in memory: its bytes, in address order. -/
abbrev Buffer := List Byte

/-- A pointer: `nullptr` (`none`) or the address of a buffer. -/
abbrev Ptr := Option Buffer

/-- The comparison `p != nullptr`. -/
def ne_nullptr (p : Ptr) : Bool := p.isSome

/-- The constant `sizeof(float)`. -/
def sizeof_float : Nat := 4

/-- The library function `memcpy(dst, src, n)`: the first `n` bytes of `dst`
become the first `n` bytes of `src`. The behaviour is undefined (`none`)
when `n` bytes do not fit in the destination object or are not available in
the source object. -/
def memcpy (dst src : Buffer) (n : Nat) : Option Buffer :=
  if n ≤ dst.length ∧ n ≤ src.length then some (src.take n ++ dst.drop n) else none

/-- The class `CUDA::Vector<T>`: its only data member is the array
`T m_data[CUDA_VECTOR_SIZE]`, held as its `sizeof(T) * CUDA_VECTOR_SIZE`
bytes. -/
structure Vector where
  m_data : Buffer

/-- The array member `m_data` used as a pointer: the address of its first
element, which is never null. -/
def Vector.m_data_ptr (v : Vector) : Ptr := some v.m_data

/-- Lane `j` of a vector of elements of `sz` bytes: the bytes
`m_data[j]` occupies. -/
def Vector.lane (sz : Nat) (v : Vector) (j : Nat) : Buffer :=
  (v.m_data.drop (j * sz)).take sz

/-- Element `j` of a buffer of elements of `sz` bytes. -/
def elem (sz : Nat) (mem : Buffer) (j : Nat) : Buffer :=
  (mem.drop (j * sz)).take sz

/-- Member `load(const EntryType *mem)`:
`if (mem != nullptr) memcpy(m_data, mem, sizeof(float) * CUDA_VECTOR_SIZE);`
with `Size` for the macro `CUDA_VECTOR_SIZE`. The result is the vector after
the call, `none` when the call has undefined behaviour. -/
def Vector.load (Size : Nat) (v : Vector) (mem : Ptr) : Option Vector :=
  if ne_nullptr mem then
    match mem with
    | some src =>
      match memcpy v.m_data src (sizeof_float * Size) with
      | some d => some ⟨d⟩
      | none => none
    | none => none
  else some v

/-- Member `store(U *mem) const`:
`if (m_data != nullptr) memcpy(mem, m_data, sizeof(float) * CUDA_VECTOR_SIZE);`.
The result is the destination pointer with the contents of its buffer after
the call, `none` when the call has undefined behaviour (a copy to the null
pointer included). -/
def Vector.store (Size : Nat) (v : Vector) (mem : Ptr) : Option Ptr :=
  if ne_nullptr v.m_data_ptr then
    match mem with
    | some dst =>
      match memcpy dst v.m_data (sizeof_float * Size) with
      | some d => some (some d)
      | none => none
    | none => none
  else some mem

end CUDA

/-! ## Lemmas: lanes, packing and masks -/

theorem testBit_lane (w j x i : Nat) :
    (lane w j x).testBit i = (decide (i < w) && x.testBit (w * j + i)) := by
  simp [lane, Nat.testBit_mod_two_pow, Nat.testBit_shiftRight]

theorem testBit_pack (w n : Nat) (f : Nat → Nat) (i : Nat) (hw : 0 < w) :
    (pack w n f).testBit i = (decide (i / w < n) && (f (i / w)).testBit (i % w)) := by
  induction n with
  | zero => simp [pack]
  | succ n ih =>
    simp only [pack, Nat.testBit_or, ih, Nat.testBit_shiftLeft, Nat.testBit_mod_two_pow]
    rcases Nat.lt_trichotomy (i / w) n with h | h | h
    · have h1 : i < w * n := by
        rw [Nat.mul_comm]; exact (Nat.div_lt_iff_lt_mul hw).mp h
      have h2 : ¬ (i ≥ w * n) := by omega
      have h3 : i / w < n + 1 := by omega
      simp [h, h2, h3]
    · have h1 : w * n ≤ i := by
        rw [← h]; exact Nat.mul_div_le i w
      have h2 : i - w * n = i % w := by
        rw [← h, Nat.mod_def]
      have h3 : i % w < w := Nat.mod_lt _ hw
      simp [h, h1, h2, h3]
    · have h1 : ¬ (i / w < n) := by omega
      have h2 : ¬ (i / w < n + 1) := by omega
      have h3 : w * (n + 1) ≤ i := by
        have := Nat.mul_le_mul_left w (show n + 1 ≤ i / w from h)
        exact le_trans this (Nat.mul_div_le i w)
      have h4 : ¬ (i - w * n < w) := by
        rw [Nat.mul_succ] at h3; omega
      simp [h1, h2, h4]

theorem lane_pack (w n : Nat) (f : Nat → Nat) (j : Nat) (hw : 0 < w) :
    lane w j (pack w n f) = if j < n then f j % 2 ^ w else 0 := by
  apply Nat.eq_of_testBit_eq
  intro i
  rw [testBit_lane, testBit_pack _ _ _ _ hw]
  by_cases hi : i < w
  · have h1 : (w * j + i) / w = j := by
      rw [Nat.mul_comm, Nat.add_comm, Nat.add_mul_div_right _ _ hw, Nat.div_eq_of_lt hi]; simp
    have h2 : (w * j + i) % w = i := by
      rw [Nat.mul_comm, Nat.add_comm, Nat.add_mul_mod_self_right, Nat.mod_eq_of_lt hi]
    rw [h1, h2]
    by_cases hj : j < n <;> simp [hi, hj, Nat.testBit_mod_two_pow]
  · by_cases hj : j < n <;> simp [hi, hj, Nat.testBit_mod_two_pow]

theorem testBit_maskOf (n : Nat) (p : Nat → Bool) (i : Nat) :
    (maskOf n p).testBit i = (decide (i < n) && p i) := by
  rw [maskOf, testBit_pack _ _ _ _ Nat.one_pos]
  simp only [Nat.div_one, Nat.mod_one]
  cases p i <;> simp

theorem maskOf_lt (n : Nat) (p : Nat → Bool) : maskOf n p < 2 ^ n := by
  apply Nat.lt_pow_two_of_testBit
  intro i hi
  rw [testBit_maskOf]
  have : ¬ i < n := by omega
  simp [this]

theorem testBit_bitNot (w x i : Nat) :
    (bitNot w x).testBit i = (decide (i < w) && !x.testBit i) := by
  have hx : x % 2 ^ w < 2 ^ w := Nat.mod_lt _ (Nat.two_pow_pos w)
  have : bitNot w x = 2 ^ w - (x % 2 ^ w + 1) := by
    unfold bitNot; omega
  rw [this, Nat.testBit_two_pow_sub_succ hx, Nat.testBit_mod_two_pow]
  by_cases hi : i < w <;> simp [hi]

theorem firstbitLoop_spec (k : Nat) :
    ∀ fuel i, (∀ t, t < i → k.testBit t = false) →
      (∃ j, i ≤ j ∧ j < i + fuel ∧ k.testBit j = true) →
      IsLowestBit k (firstbitLoop k fuel i) := by
  intro fuel
  induction fuel with
  | zero =>
    intro i _ h
    obtain ⟨j, h1, h2, _⟩ := h
    omega
  | succ fuel ih =>
    intro i hlow hex
    unfold firstbitLoop
    by_cases hb : k.testBit i = true
    · simp only [hb, if_true]
      exact ⟨hb, hlow⟩
    · simp only [hb]
      apply ih
      · intro t ht
        rcases Nat.lt_succ_iff_lt_or_eq.mp ht with h | h
        · exact hlow t h
        · subst h; simpa using hb
      · obtain ⟨j, h1, h2, h3⟩ := hex
        refine ⟨j, ?_, by omega, h3⟩
        rcases Nat.eq_or_lt_of_le h1 with h | h
        · subst h; exact absurd h3 hb
        · exact h

theorem firstbit_spec (k : Nat) (hk : k ≠ 0) : IsLowestBit k (firstbit k) := by
  unfold firstbit
  apply firstbitLoop_spec
  · intro t ht; omega
  · obtain ⟨j, hj⟩ := Nat.ne_zero_implies_bit_true hk
    have h1 : 2 ^ j ≤ k := Nat.testBit_implies_ge hj
    have h2 : j < 2 ^ j := Nat.lt_two_pow j
    exact ⟨j, Nat.zero_le _, by omega, hj⟩

theorem testBit_clear_lowest (j : Nat) :
    ∀ k i, IsLowestBit k j →
      (k &&& (k - 1)).testBit i = (k.testBit i && decide (i ≠ j)) := by
  induction j with
  | zero =>
    intro k i h
    have hodd : k % 2 = 1 := by simpa using h.1
    cases i with
    | zero =>
      have : (k - 1) % 2 = 0 := by omega
      simp [Nat.testBit_and, this]
    | succ i =>
      have : (k - 1) / 2 = k / 2 := by omega
      rw [Nat.testBit_and, Nat.testBit_add_one, Nat.testBit_add_one, this]
      simp
  | succ j ih =>
    intro k i h
    have h0 : k.testBit 0 = false := h.2 0 (Nat.succ_pos j)
    have heven : k % 2 = 0 := by
      have := h0
      simp at this
      omega
    have hm : IsLowestBit (k / 2) j := by
      refine ⟨?_, ?_⟩
      · have := h.1
        rwa [Nat.testBit_succ] at this
      · intro t ht
        have := h.2 (t + 1) (by omega)
        rwa [Nat.testBit_succ] at this
    have hne : k / 2 ≠ 0 := by
      intro h0'
      have := hm.1
      rw [h0'] at this
      simp at this
    cases i with
    | zero => simp [Nat.testBit_and, heven]
    | succ i =>
      have h1 : (k - 1) / 2 = k / 2 - 1 := by omega
      have := ih (k / 2) i hm
      rw [Nat.testBit_and] at this
      rw [Nat.testBit_and, Nat.testBit_succ, Nat.testBit_succ, h1, this]
      simp

theorem testBit_set (m i : Nat) (x : Bool) (t : Nat) :
    (mask_member_type.set m i x).testBit t = if t = i then x else m.testBit t := by
  unfold mask_member_type.set
  by_cases ht : t = i
  · subst ht
    cases x <;> simp [Nat.one_shiftLeft, Nat.testBit_two_pow_self]
  · have h2 : (2 ^ i).testBit t = false := Nat.testBit_two_pow_of_ne (Ne.symm ht)
    cases x <;> simp [Nat.one_shiftLeft, h2, ht]

theorem testBit_bit_iteration_loop (mem : Mem) :
    ∀ fuel k s, k ≤ fuel → ∀ i,
      (bit_iteration_loop (fun i m => mask_member_type.set m i (decide (mem i ≠ 0)))
        fuel k s).testBit i
        = if k.testBit i = true then decide (mem i ≠ 0) else s.testBit i := by
  intro fuel
  induction fuel with
  | zero =>
    intro k s hk i
    have : k = 0 := by omega
    subst this
    simp [bit_iteration_loop]
  | succ fuel ih =>
    intro k s hk i
    unfold bit_iteration_loop
    by_cases h0 : k = 0
    · subst h0; simp
    · simp only [h0, if_false]
      have hlow := firstbit_spec k h0
      have hle : k &&& (k - 1) ≤ fuel := by
        have : k &&& (k - 1) ≤ k - 1 := Nat.and_le_right
        omega
      rw [ih _ _ hle, testBit_clear_lowest _ _ _ hlow, testBit_set]
      by_cases hi : i = firstbit k
      · subst hi
        simp [hlow.1]
      · simp [hi]

theorem testBit_masked_load_fallback (merge mask : Nat) (mem : Mem) (i : Nat) :
    (masked_load_fallback merge mask mem).testBit i
      = if mask.testBit i = true then decide (mem i ≠ 0) else merge.testBit i := by
  unfold masked_load_fallback bit_iteration
  exact testBit_bit_iteration_loop mem mask mask merge (Nat.le_refl _) i

theorem lane_mod_two_pow (w j m x : Nat) (h : w * (j + 1) ≤ m) :
    lane w j (x % 2 ^ m) = lane w j x := by
  apply Nat.eq_of_testBit_eq
  intro i
  rw [testBit_lane, testBit_lane, Nat.testBit_mod_two_pow]
  by_cases hi : i < w
  · have : w * j + i < m := by
      rw [Nat.mul_succ] at h; omega
    simp [hi, this]
  · simp [hi]

theorem lane_maskz_set1 (w n k j : Nat) (hw : 0 < w) (hj : j < n) :
    lane w j (maskz_set1 w n k 1) = if k.testBit j = true then 1 else 0 := by
  rw [maskz_set1, lane_pack _ _ _ _ hw]
  have h1 : 1 % 2 ^ w = 1 := Nat.mod_eq_of_lt (Nat.one_lt_two_pow (Nat.pos_iff_ne_zero.mp hw))
  by_cases hb : k.testBit j = true <;> simp [hj, hb, h1]

theorem toByte_bit (b : Bool) : toByte (if b = true then 1 else 0) = if b = true then 1 else 0 := by
  cases b <;> rfl

theorem mask_cvt_storeu_maskz (w n lanes : Nat) (hw : 0 < w) (hn : n ≤ lanes)
    (mem : Mem) (k v j : Nat) :
    mask_cvt_storeu_epi8 w n mem k (maskz_set1 w lanes v 1) j
      = if j < n ∧ k.testBit j = true then (if v.testBit j = true then 1 else 0) else mem j := by
  unfold mask_cvt_storeu_epi8
  by_cases h : j < n ∧ k.testBit j = true
  · rw [if_pos h, if_pos h, lane_maskz_set1 _ _ _ _ hw (Nat.lt_of_lt_of_le h.1 hn), toByte_bit]
  · rw [if_neg h, if_neg h]

theorem builtin_store_maskz (n lanes : Nat) (hn : n ≤ lanes) (mem : Mem) (v j : Nat) :
    builtin_store n (maskz_set1 8 lanes v 1) mem j
      = if j < n then (if v.testBit j = true then 1 else 0) else mem j := by
  unfold builtin_store
  by_cases h : j < n
  · rw [if_pos h, if_pos h, lane_maskz_set1 _ _ _ _ (by decide) (Nat.lt_of_lt_of_le h hn),
      toByte_bit]
  · rw [if_neg h, if_neg h]

set_option maxRecDepth 100000 in
theorem pdep_u64_spread : ∀ v, v < 256 →
    make_storage 64 [_pdep_u64 v 0x0101010101010101, 0] % 2 ^ 64 = maskz_set1 8 8 v 1 := by
  decide

set_option maxRecDepth 100000 in
theorem pdep_u32_spread : ∀ v, v < 256 →
    make_storage 32 [_pdep_u32 v 0x01010101, _pdep_u32 (v >>> 4) 0x01010101] % 2 ^ 64
      = maskz_set1 8 8 v 1 := by
  decide

theorem lane_store_8_bytes (c : Caps) (v j : Nat) (hv : v < 2 ^ 8) (hj : j < 8) :
    lane 8 j (store_8_bytes c v) = if v.testBit j = true then 1 else 0 := by
  unfold store_8_bytes
  by_cases h1 : (c.avx512vl && c.avx512bw) = true
  · rw [if_pos h1]
    exact lane_maskz_set1 8 16 v j (by decide) (by omega)
  · rw [if_neg h1]
    by_cases h2 : c.x86_64 = true
    · rw [if_pos h2, ← lane_mod_two_pow 8 j 64 _ (by omega), pdep_u64_spread v hv]
      exact lane_maskz_set1 8 8 v j (by decide) hj
    · rw [if_neg h2, ← lane_mod_two_pow 8 j 64 _ (by omega), pdep_u32_spread v hv]
      exact lane_maskz_set1 8 8 v j (by decide) hj

theorem store_8_eq (c : Caps) (v : Nat) (hv : v < 2 ^ 8) (mem : Mem) :
    store_8 c v mem = storedBytes 8 v mem := by
  funext j
  unfold store_8 builtin_store storedBytes
  by_cases h : j < 8
  · rw [if_pos h, if_pos h, lane_store_8_bytes c v j hv h, toByte_bit]
  · rw [if_neg h, if_neg h]

theorem all_ones_16 : bitNot 32 0 % 2 ^ 16 = 2 ^ 16 - 1 := by decide

theorem store_16_eq (c : Caps) (v : Nat) (mem : Mem) :
    store_16 c v mem = storedBytes 16 v mem := by
  funext j
  unfold store_16 storedBytes
  by_cases h1 : (c.avx512vl && c.avx512bw) = true
  · rw [if_pos h1]
    exact builtin_store_maskz 16 16 (Nat.le_refl _) mem v j
  · rw [if_neg h1, _mm512_mask_cvtepi32_storeu_epi8, _mm512_maskz_set1_epi32,
      mask_cvt_storeu_maskz 32 16 16 (by decide) (Nat.le_refl _), all_ones_16,
      Nat.testBit_two_pow_sub_one]
    by_cases h : j < 16 <;> simp [h]

theorem store_32_eq (c : Caps) (v : Nat) (mem : Mem) :
    store_32 c v mem = storedBytes 32 v mem := by
  funext j
  unfold store_32 storedBytes
  by_cases h1 : c.avx512vl = true
  · rw [if_pos h1]
    exact builtin_store_maskz 32 32 (Nat.le_refl _) mem v j
  · rw [if_neg h1]
    unfold builtin_store lo256
    by_cases h : j < 32
    · rw [if_pos h, if_pos h, lane_mod_two_pow 8 j 256 _ (by omega), _mm512_maskz_set1_epi8,
        lane_maskz_set1 _ _ _ _ (by decide) (by omega), toByte_bit]
    · rw [if_neg h, if_neg h]

theorem store_64_eq (v : Nat) (mem : Mem) :
    store_64 v mem = storedBytes 64 v mem := by
  funext j
  exact builtin_store_maskz 64 64 (Nat.le_refl _) mem v j

theorem lane_zero (w j : Nat) : lane w j 0 = 0 := by
  simp [lane]

theorem byte_ne_zero (b : Byte) : (b.val % 2 ^ 8 &&& b.val % 2 ^ 8 ≠ 0) ↔ b ≠ 0 := by
  have hb : b.val % 2 ^ 8 = b.val := Nat.mod_eq_of_lt b.isLt
  rw [Nat.and_self, hb]
  constructor
  · intro h hb
    exact h (by rw [hb]; rfl)
  · intro h hb
    exact h (Fin.ext hb)

theorem masked_load_hw_eq (N W n : Nat) (hW : N ≤ W) (hn : N ≤ n) (merge mask : Nat)
    (mem : Mem) :
    ((merge &&& bitNot W mask) |||
        test_epi8_mask n (mask_loadu_epi8 n zero mask mem) (mask_loadu_epi8 n zero mask mem))
      % 2 ^ N = loadedMask N merge mask mem := by
  apply Nat.eq_of_testBit_eq
  intro i
  rw [loadedMask, testBit_maskOf, Nat.testBit_mod_two_pow, Nat.testBit_or, Nat.testBit_and,
    testBit_bitNot, test_epi8_mask, testBit_maskOf, mask_loadu_epi8,
    lane_pack _ _ _ _ (by decide : 0 < 8)]
  by_cases hi : i < N
  · have h1 : i < W := by omega
    have h2 : i < n := by omega
    by_cases hb : mask.testBit i = true
    · simp only [hi, h1, h2, hb, if_true, decide_True, Bool.true_and, Bool.not_true,
        Bool.and_false, Bool.false_or]
      by_cases hm : mem i ≠ 0
      · rw [decide_eq_true hm, decide_eq_true ((byte_ne_zero _).mpr hm)]
      · rw [decide_eq_false hm, decide_eq_false (fun h => hm ((byte_ne_zero _).mp h))]
    · simp [hi, h1, h2, hb, zero, lane_zero]
  · simp [hi]

theorem masked_load_fallback_eq (N merge mask : Nat) (hmerge : merge < 2 ^ N)
    (hmask : mask < 2 ^ N) (mem : Mem) :
    masked_load_fallback merge mask mem = loadedMask N merge mask mem := by
  apply Nat.eq_of_testBit_eq
  intro i
  rw [loadedMask, testBit_maskOf, testBit_masked_load_fallback]
  by_cases hi : i < N
  · simp [hi]
  · have h1 : mask.testBit i = false :=
      Nat.testBit_lt_two_pow (Nat.lt_of_lt_of_le hmask (Nat.pow_le_pow_right (by decide) (by omega)))
    have h2 : merge.testBit i = false :=
      Nat.testBit_lt_two_pow (Nat.lt_of_lt_of_le hmerge (Nat.pow_le_pow_right (by decide) (by omega)))
    simp [hi, h1, h2]

theorem masked_load_eq (c : Caps) (N : Nat) (hN : N = 8 ∨ N = 16 ∨ N = 32 ∨ N = 64)
    (merge mask : Nat) (hmerge : merge < 2 ^ N) (hmask : mask < 2 ^ N) (mem : Mem) :
    masked_load c N merge mask mem = some (loadedMask N merge mask mem) := by
  unfold masked_load
  by_cases hc : (c.avx512vl && c.avx512bw) = true
  · rw [if_pos hc]
    rcases hN with rfl | rfl | rfl | rfl
    · rw [if_pos rfl, masked_load_8]
      exact congrArg some (masked_load_hw_eq 8 32 16 (by decide) (by decide) merge mask mem)
    · rw [if_neg (by decide), if_pos rfl, masked_load_16]
      exact congrArg some (masked_load_hw_eq 16 32 16 (by decide) (by decide) merge mask mem)
    · rw [if_neg (by decide), if_neg (by decide), if_pos rfl, masked_load_32]
      exact congrArg some (masked_load_hw_eq 32 32 32 (by decide) (by decide) merge mask mem)
    · rw [if_neg (by decide), if_neg (by decide), if_neg (by decide), if_pos rfl, masked_load_64]
      exact congrArg some (masked_load_hw_eq 64 64 64 (by decide) (by decide) merge mask mem)
  · rw [if_neg hc, if_pos hN, masked_load_fallback_eq N merge mask hmerge hmask mem]

theorem maskOf_testBit (N m : Nat) (hm : m < 2 ^ N) : maskOf N (fun i => m.testBit i) = m := by
  apply Nat.eq_of_testBit_eq
  intro i
  rw [testBit_maskOf]
  by_cases hi : i < N
  · simp [hi]
  · have : m.testBit i = false :=
      Nat.testBit_lt_two_pow (Nat.lt_of_lt_of_le hm (Nat.pow_le_pow_right (by decide) (by omega)))
    simp [hi, this]

theorem lane_lt (w j x : Nat) : lane w j x < 2 ^ w :=
  Nat.mod_lt _ (Nat.two_pow_pos w)

theorem laneOp_lt (fa : FloatArith) (op : Op) (s : Suffix) (x y : Nat) :
    laneOp fa op s x y < 2 ^ s.bits := by
  cases op <;> cases s <;>
    first
    | exact fa.add64_lt x y
    | exact fa.sub64_lt x y
    | exact fa.add32_lt x y
    | exact fa.sub32_lt x y
    | exact Nat.mod_lt _ (Nat.two_pow_pos _)

theorem Suffix.bits_pos (s : Suffix) : 0 < s.bits := by
  cases s <;> decide

theorem lane_mask_arith (fa : FloatArith) (op : Op) (s : Suffix) (src k a b j : Nat)
    (hj : j < 512 / s.bits) :
    lane s.bits j (_mm512_mask_arith fa op s src k a b)
      = if k.testBit j = true then laneOp fa op s (lane s.bits j a) (lane s.bits j b)
        else lane s.bits j src := by
  rw [_mm512_mask_arith, lane_pack _ _ _ _ s.bits_pos, if_pos hj]
  by_cases hb : k.testBit j = true
  · simp only [hb, if_true]
    exact Nat.mod_eq_of_lt (laneOp_lt fa op s _ _)
  · simp only [hb]
    exact Nat.mod_eq_of_lt (lane_lt _ _ _)

theorem cassign_suffix_sound (fa : FloatArith) (full : Bool) (op : Op) (T : ElemType)
    (s : Suffix) (h : cassign_suffix full T = some s) :
    s.bits = laneBits T ∧ 512 / s.bits = simd_size T ∧ laneOp fa op s = applyOp fa op T := by
  cases T <;> cases full <;> cases op <;> simp [cassign_suffix] at h <;> subst h <;>
    exact ⟨rfl, rfl, rfl⟩

theorem store_eq (c : Caps) (N : Nat) (hN : N = 8 ∨ N = 16 ∨ N = 32 ∨ N = 64)
    (hbw : N = 32 ∨ N = 64 → c.avx512bw = true) (v : Nat) (hv : v < 2 ^ N) (mem : Mem) :
    store c N v mem = some (storedBytes N v mem) := by
  unfold store
  rcases hN with rfl | rfl | rfl | rfl
  · rw [if_pos rfl, store_8_eq c v hv]
  · rw [if_neg (by decide), if_pos rfl, store_16_eq]
  · rw [if_neg (by decide), if_neg (by decide), if_pos rfl, if_pos (hbw (Or.inl rfl)),
      store_32_eq]
  · rw [if_neg (by decide), if_neg (by decide), if_neg (by decide), if_pos rfl,
      if_pos (hbw (Or.inr rfl)), store_64_eq]

theorem static_assert_cond_arity (cv : Converter) (n : Nat) (cond : Nat → Nat → Bool)
    (h : static_assert_cond cv n = some cond) : n ≤ 64 := by
  unfold static_assert_cond at h
  split at h <;> first | omega | simp at h

theorem accepts_no_overfill_bounded :
    ∀ cv : Converter, cv ≠ .scalar_avx512 → ∀ n, n ≤ 64 → 2 ≤ n →
      ∀ sF ∈ [1, 2, 4, 8], ∀ sT ∈ [1, 2, 4, 8],
        accepts cv n sF sT = true → n * cv.src.lanes sF ≤ cv.dst.lanes sT := by
  intro cv
  cases cv <;> decide

/-! ## The claims -/

/-- C1. Masked-store isolation: for every lane count `N` in {8,16,32,64} (the
32- and 64-lane overloads exist under `Vc_HAVE_AVX512BW`, and the 32-lane
overload builds only with `Vc_HAVE_AVX512VL` as well), every mask `v`,
predicate `k` and initial buffer, on every capability path on which the call
builds `masked_store(v, mem, k)` returns a buffer in which, for every lane
`i < N`, the byte is the old byte where bit `i` of `k` is clear, and is
`0x01` or `0x00` according to bit `i` of `v` where bit `i` of `k` is set. -/
theorem masked_store_isolation (c : Caps) (N : Nat)
    (hN : N = 8 ∨ N = 16 ∨ N = 32 ∨ N = 64)
    (hbw : N = 32 ∨ N = 64 → c.avx512bw = true)
    (hvl : N = 32 → c.avx512vl = true) (v k : Nat) (mem : Mem) :
    ∃ mem', masked_store c N v mem k = some mem' ∧
      ∀ i, i < N → mem' i =
        if k.testBit i = true then (if v.testBit i = true then 1 else 0) else mem i := by
  unfold masked_store
  rcases hN with rfl | rfl | rfl | rfl
  · refine ⟨_, by rw [if_pos rfl], ?_⟩
    intro i hi
    unfold masked_store_8
    by_cases h1 : (c.avx512vl && c.avx512bw) = true
    · rw [if_pos h1, _mm_mask_cvtepi16_storeu_epi8, _mm_maskz_set1_epi16,
        mask_cvt_storeu_maskz 16 8 8 (by decide) (by decide)]
      simp [hi]
    · rw [if_neg h1]
      by_cases h2 : c.avx512vl = true
      · rw [if_pos h2, _mm256_mask_cvtepi32_storeu_epi8, _mm256_maskz_set1_epi32,
          mask_cvt_storeu_maskz 32 8 8 (by decide) (by decide)]
        simp [hi]
      · rw [if_neg h2, _mm512_mask_cvtepi32_storeu_epi8, _mm512_maskz_set1_epi32,
          mask_cvt_storeu_maskz 32 16 16 (by decide) (by decide)]
        have : i < 16 := by omega
        simp [this]
  · refine ⟨_, by rw [if_neg (by decide), if_pos rfl], ?_⟩
    intro i hi
    unfold masked_store_16
    by_cases h1 : (c.avx512vl && c.avx512bw) = true
    · rw [if_pos h1, _mm_mask_storeu_epi8, _mm_maskz_set1_epi8,
        mask_cvt_storeu_maskz 8 16 16 (by decide) (by decide)]
      simp [hi]
    · rw [if_neg h1, _mm512_mask_cvtepi32_storeu_epi8, _mm512_maskz_set1_epi32,
        mask_cvt_storeu_maskz 32 16 16 (by decide) (by decide)]
      simp [hi]
  · have hb := hbw (Or.inl rfl)
    refine ⟨_, by rw [if_neg (by decide), if_neg (by decide), if_pos rfl, if_pos hb,
      if_pos (hvl rfl)], ?_⟩
    intro i hi
    unfold masked_store_32
    by_cases h1 : c.avx512vl = true
    · rw [if_pos h1, _mm256_mask_storeu_epi8, _mm256_maskz_set1_epi8,
        mask_cvt_storeu_maskz 8 32 32 (by decide) (by decide)]
      simp [hi]
    · rw [if_neg h1, _mm256_mask_storeu_epi8, _mm512_maskz_set1_epi8]
      unfold mask_cvt_storeu_epi8 lo256
      rw [lane_mod_two_pow 8 i 256 _ (by omega),
        lane_maskz_set1 8 64 v i (by decide) (by omega), toByte_bit]
      simp [hi]
  · have hb := hbw (Or.inr rfl)
    refine ⟨_, by rw [if_neg (by decide), if_neg (by decide), if_neg (by decide), if_pos rfl,
      if_pos hb], ?_⟩
    intro i hi
    rw [masked_store_64, _mm512_mask_storeu_epi8, _mm512_maskz_set1_epi8,
      mask_cvt_storeu_maskz 8 64 64 (by decide) (by decide)]
    simp [hi]

/-- Witness of C1: 32 lanes with `AVX512VL` and `AVX512BW`, `v = 0b101`,
`k = 0b011`, over a buffer of bytes `7`. -/
theorem masked_store_isolation_witness :
    (32 = 8 ∨ 32 = 16 ∨ 32 = 32 ∨ 32 = 64) ∧
    ∃ mem', masked_store ⟨true, true, true⟩ 32 5 (fun _ => 7) 3 = some mem' ∧
      ∀ i, i < 32 → mem' i =
        if Nat.testBit 3 i = true then (if Nat.testBit 5 i = true then 1 else 0) else 7 :=
  ⟨Or.inr (Or.inr (Or.inl rfl)),
    masked_store_isolation ⟨true, true, true⟩ 32 (Or.inr (Or.inr (Or.inl rfl)))
      (fun _ => rfl) (fun _ => rfl) 5 3 (fun _ => 7)⟩

/-- C2. Masked-load contract: for every lane count `N` in {8,16,32,64}, all
`N`-bit `merge` and `mask` and every buffer, on both the hardware and the
fallback path `masked_load(merge, mask, mem)` returns an `N`-bit mask whose
bit `i` is `mem[i] != 0` where bit `i` of `mask` is set and bit `i` of
`merge` where it is clear. -/
theorem masked_load_contract (c : Caps) (N : Nat)
    (hN : N = 8 ∨ N = 16 ∨ N = 32 ∨ N = 64) (merge mask : Nat)
    (hmerge : merge < 2 ^ N) (hmask : mask < 2 ^ N) (mem : Mem) :
    ∃ r, masked_load c N merge mask mem = some r ∧ r < 2 ^ N ∧
      ∀ i, i < N → r.testBit i =
        if mask.testBit i = true then decide (mem i ≠ 0) else merge.testBit i := by
  refine ⟨_, masked_load_eq c N hN merge mask hmerge hmask mem, maskOf_lt _ _, ?_⟩
  intro i hi
  rw [loadedMask, testBit_maskOf]
  simp [hi]

/-- Witness of C2: 16 lanes on the fallback path. -/
theorem masked_load_contract_witness :
    (0xF0F0 < 2 ^ 16 ∧ 0x00FF < 2 ^ 16) ∧
    ∃ r, masked_load ⟨true, false, true⟩ 16 0xF0F0 0x00FF (fun i => if i % 3 = 0 then 1 else 0)
        = some r ∧ r < 2 ^ 16 ∧
      ∀ i, i < 16 → r.testBit i =
        if Nat.testBit 0x00FF i = true
        then decide ((fun i => if i % 3 = 0 then (1 : Byte) else 0) i ≠ 0)
        else Nat.testBit 0xF0F0 i :=
  ⟨by decide,
    masked_load_contract ⟨true, false, true⟩ 16 (Or.inr (Or.inl rfl)) 0xF0F0 0x00FF
      (by decide) (by decide) (fun i => if i % 3 = 0 then 1 else 0)⟩

/-- C3. Store contract: for every lane count `N` in {8,16,32,64} (the 32- and
64-lane overloads exist under `Vc_HAVE_AVX512BW`) and every `N`-bit mask `v`,
on every capability path `store(v, mem)` returns a buffer whose byte `i` is
`0x01` if bit `i` of `v` is set and `0x00` otherwise for every `i < N`, and
whose bytes at offsets `>= N` are those of the initial buffer. -/
theorem store_contract (c : Caps) (N : Nat)
    (hN : N = 8 ∨ N = 16 ∨ N = 32 ∨ N = 64)
    (hbw : N = 32 ∨ N = 64 → c.avx512bw = true) (v : Nat) (hv : v < 2 ^ N) (mem : Mem) :
    ∃ mem', store c N v mem = some mem' ∧
      (∀ i, i < N → mem' i = if v.testBit i = true then 1 else 0) ∧
      (∀ i, N ≤ i → mem' i = mem i) := by
  refine ⟨_, store_eq c N hN hbw v hv mem, ?_, ?_⟩
  · intro i hi
    simp [storedBytes, hi]
  · intro i hi
    have : ¬ i < N := by omega
    simp [storedBytes, this]

/-- Witness of C3: 8 lanes on the 32-bit bit-deposit path. -/
theorem store_contract_witness :
    (0xA5 < 2 ^ 8) ∧
    ∃ mem', store ⟨false, false, false⟩ 8 0xA5 (fun _ => 9) = some mem' ∧
      (∀ i, i < 8 → mem' i = if Nat.testBit 0xA5 i = true then 1 else 0) ∧
      (∀ i, 8 ≤ i → mem' i = (fun _ => (9 : Byte)) i) :=
  ⟨by decide,
    store_contract ⟨false, false, false⟩ 8 (Or.inl rfl) (by decide) 0xA5 (by decide)
      (fun _ => 9)⟩

/-- C4. Store/load round trip: for every lane count `L` in {8,16,32,64}, every
`L`-bit predicate `b` and `L`-bit `merge`, whichever store path (`c`) and
whichever `masked_load` path (`c'`) is compiled, `store(b)` returns a buffer
and `masked_load(merge, all_true, buffer)` returns exactly `b`. -/
theorem store_load_round_trip (c c' : Caps) (L : Nat)
    (hL : L = 8 ∨ L = 16 ∨ L = 32 ∨ L = 64)
    (hbw : L = 32 ∨ L = 64 → c.avx512bw = true) (b merge : Nat)
    (hb : b < 2 ^ L) (hmerge : merge < 2 ^ L) (mem : Mem) :
    ∃ buf, store c L b mem = some buf ∧
      masked_load c' L merge (2 ^ L - 1) buf = some b := by
  refine ⟨_, store_eq c L hL hbw b hb mem, ?_⟩
  have hall : 2 ^ L - 1 < 2 ^ L := Nat.sub_lt (Nat.two_pow_pos L) Nat.one_pos
  rw [masked_load_eq c' L hL merge (2 ^ L - 1) hmerge hall (storedBytes L b mem)]
  congr 1
  apply Nat.eq_of_testBit_eq
  intro i
  rw [loadedMask, testBit_maskOf, Nat.testBit_two_pow_sub_one]
  by_cases hi : i < L
  · cases hbit : b.testBit i <;> simp [hi, storedBytes, hbit]
  · have : b.testBit i = false :=
      Nat.testBit_lt_two_pow
        (Nat.lt_of_lt_of_le hb (Nat.pow_le_pow_right (by decide) (by omega)))
    simp [hi, this]

/-- Witness of C4: 8 lanes, stored through the 64-bit bit deposit and loaded
back on the hardware path. -/
theorem store_load_round_trip_witness :
    (0xA5 < 2 ^ 8 ∧ 0x3C < 2 ^ 8) ∧
    ∃ buf, store ⟨false, false, true⟩ 8 0xA5 (fun _ => 9) = some buf ∧
      masked_load ⟨true, true, true⟩ 8 0x3C (2 ^ 8 - 1) buf = some 0xA5 :=
  ⟨by decide,
    store_load_round_trip ⟨false, false, true⟩ ⟨true, true, true⟩ 8 (Or.inl rfl) (by decide)
      0xA5 0x3C (by decide) (by decide) (fun _ => 9)⟩

/-- C5. Masked compound-assignment contract: for `op` in {add, subtract},
every element type `T` with a row in the table, every lane mask `k` and all
registers `lhs`, `rhs`, `masked_cassign(op, k, lhs, rhs)` leaves in `lhs` a
register whose lane `i` is `op(old lhs[i], rhs[i])` where bit `i` of `k` is
set and `old lhs[i]` where it is clear. Scenario: 16 lanes of 32-bit
integers, `lhs = [0..15]`, `rhs` sixteen ones, `k` true on the even lanes,
`op = add` gives `[1,1,3,3,5,5,7,7,9,9,11,11,13,13,15,15]`. -/
theorem masked_cassign_contract (fa : FloatArith) (full : Bool) :
    (∀ (op : Op) (T : ElemType) (k lhs rhs : Nat), (cassign_suffix full T).isSome = true →
      ∃ r, masked_cassign fa full op T k lhs rhs = some r ∧
        ∀ i, i < simd_size T →
          lane (laneBits T) i r =
            if k.testBit i = true
            then applyOp fa op T (lane (laneBits T) i lhs) (lane (laneBits T) i rhs)
            else lane (laneBits T) i lhs) ∧
    masked_cassign fa full .plus .int 0x5555
        (make_storage 32 [0, 1, 2, 3, 4, 5, 6, 7, 8, 9, 10, 11, 12, 13, 14, 15])
        (make_storage 32 [1, 1, 1, 1, 1, 1, 1, 1, 1, 1, 1, 1, 1, 1, 1, 1])
      = some (make_storage 32 [1, 1, 3, 3, 5, 5, 7, 7, 9, 9, 11, 11, 13, 13, 15, 15]) := by
  constructor
  · intro op T k lhs rhs hT
    cases hs : cassign_suffix full T with
    | none => rw [hs] at hT; exact absurd hT (by decide)
    | some s =>
      obtain ⟨h1, h2, h3⟩ := cassign_suffix_sound fa full op T s hs
      refine ⟨_mm512_mask_arith fa op s lhs k lhs rhs, ?_, ?_⟩
      · unfold masked_cassign
        rw [hs]
      · intro i hi
        rw [← h1, ← h3]
        exact lane_mask_arith fa op s lhs k lhs rhs i (by rw [h2]; exact hi)
  · cases full <;> rfl

/-- Witness of C5: the `unsigned int` row, subtraction, lane 0 of a
one-lane update. -/
theorem masked_cassign_contract_witness :
    (cassign_suffix false .uint).isSome = true ∧
    ∃ r, masked_cassign zeroFloatArith false .minus .uint 1 5 7 = some r ∧
      ∀ i, i < simd_size .uint →
        lane (laneBits .uint) i r =
          if Nat.testBit 1 i = true
          then applyOp zeroFloatArith .minus .uint (lane (laneBits .uint) i 5)
              (lane (laneBits .uint) i 7)
          else lane (laneBits .uint) i 5 :=
  ⟨rfl,
    (masked_cassign_contract zeroFloatArith false).1 .minus .uint 1 5 7 rfl⟩

/-- C6, as stated, fails. The SSE to AVX-512 converter accepts two sources
of four 4-byte lanes each for a destination of sixteen 4-byte lanes, which
they fill only by half; its one-argument overload, which has no assertion,
accepts a source of sixteen 1-byte lanes for a destination of eight 8-byte
lanes; and the scalar converter, which has no assertion, accepts sixteen
scalars for a destination of eight 8-byte lanes. -/
theorem conversion_exact_fill_counterexample :
    (accepts .sse_avx512 2 4 4 = true ∧
      2 * Converter.sse_avx512.src.lanes 4 ≠ Converter.sse_avx512.dst.lanes 4) ∧
    (accepts .sse_avx512 1 1 8 = true ∧
      1 * Converter.sse_avx512.src.lanes 1 ≠ Converter.sse_avx512.dst.lanes 8) ∧
    (accepts .scalar_avx512 16 8 8 = true ∧
      16 * Converter.scalar_avx512.src.lanes 8 ≠ Converter.scalar_avx512.dst.lanes 8) := by
  decide

/-- C6, amended. For every register converter of `avx512.h` (SSE, AVX and
AVX-512 sources or destinations), every pair of element sizes in {1,2,4,8}
bytes and every arity `n >= 2`, a call with `n` sources is accepted by the
compile-time assertions only if the sources do not overfill one destination
register (`n * sourceLanes <= destinationLanes`); the one-argument overloads
and the overloads of the scalar converter carry no assertion. -/
theorem conversion_accepts_only_no_overfill :
    (∀ (cv : Converter) (n sF sT : Nat), cv ≠ .scalar_avx512 → 2 ≤ n →
      (sF = 1 ∨ sF = 2 ∨ sF = 4 ∨ sF = 8) → (sT = 1 ∨ sT = 2 ∨ sT = 4 ∨ sT = 8) →
      accepts cv n sF sT = true → n * cv.src.lanes sF ≤ cv.dst.lanes sT) ∧
    (∀ (cv : Converter) (sF sT : Nat), accepts cv 1 sF sT = true) ∧
    (∀ (n sF sT : Nat) (cond : Nat → Nat → Bool),
      static_assert_cond .scalar_avx512 n = some cond → cond sF sT = true) := by
  refine ⟨?_, ?_, ?_⟩
  · intro cv n sF sT hcv hn hsF hsT h
    have hn64 : n ≤ 64 := by
      unfold accepts at h
      cases hc : static_assert_cond cv n with
      | none => rw [hc] at h; simp at h
      | some cond => exact static_assert_cond_arity cv n cond hc
    exact accepts_no_overfill_bounded cv hcv n hn64 hn sF (by simp; tauto) sT (by simp; tauto) h
  · intro cv sF sT
    cases cv <;> rfl
  · intro n sF sT cond h
    unfold static_assert_cond at h
    split at h <;> first
      | contradiction
      | (simp at h; subst h; rfl)

/-- Witness of C6, amended: two AVX sources of 8-byte elements for an
AVX-512 destination of 4-byte elements. -/
theorem conversion_accepts_only_no_overfill_witness :
    accepts .avx_avx512 2 8 4 = true ∧
      2 * Converter.avx_avx512.src.lanes 8 ≤ Converter.avx_avx512.dst.lanes 4 :=
  ⟨by decide,
    conversion_accepts_only_no_overfill.1 .avx_avx512 2 8 4 (by decide) (by decide)
      (by decide) (by decide) (by decide)⟩

/-- C7. Negate on integer lanes: for every integer element type `T` and
every register `x`, `negate(x)` is a bitmask of `64 / sizeof(T)` bits whose
bit `i` is set if and only if lane `i` of `x` is zero. -/
theorem negate_integer (T : ElemType) (hT : T.isFloat = false) (x : Nat) :
    negate T x < 2 ^ (64 / sizeof T) ∧
      ∀ i, i < 64 / sizeof T →
        ((negate T x).testBit i = true ↔ lane (8 * sizeof T) i x = 0) := by
  constructor
  · exact maskOf_lt _ _
  · intro i hi
    have hi' : i < simd_size T := hi
    unfold negate equal_to simd_member_type_zero
    rw [testBit_maskOf]
    cases T <;> first
      | exact absurd hT (by decide)
      | simp [hi', lane_zero, laneBits, sizeof]

/-- Witness of C7: sixteen `int` lanes. -/
theorem negate_integer_witness :
    ElemType.int.isFloat = false ∧
    (negate .int (make_storage 32 [0, 1, 0, 3]) < 2 ^ (64 / sizeof .int) ∧
      ∀ i, i < 64 / sizeof .int →
        ((negate .int (make_storage 32 [0, 1, 0, 3])).testBit i = true
          ↔ lane (8 * sizeof .int) i (make_storage 32 [0, 1, 0, 3]) = 0)) :=
  ⟨rfl, negate_integer .int rfl (make_storage 32 [0, 1, 0, 3])⟩

/-- C8. The two `masked_load` algorithms agree: for every `N` in
{8,16,32,64}, all `N`-bit `merge` and `mask` and every buffer, the hardware
overload for `N` lanes (masked byte load, test for non-zero,
`(merge & ~mask) | loaded`) returns the same mask as the fallback template
(iteration over the set bits of `mask`, setting that bit of `merge` to
`bool(mem[i])`). -/
theorem masked_load_paths_agree (merge mask : Nat) (mem : Mem) :
    (merge < 2 ^ 8 → mask < 2 ^ 8 →
      masked_load_8 merge mask mem = masked_load_fallback merge mask mem) ∧
    (merge < 2 ^ 16 → mask < 2 ^ 16 →
      masked_load_16 merge mask mem = masked_load_fallback merge mask mem) ∧
    (merge < 2 ^ 32 → mask < 2 ^ 32 →
      masked_load_32 merge mask mem = masked_load_fallback merge mask mem) ∧
    (merge < 2 ^ 64 → mask < 2 ^ 64 →
      masked_load_64 merge mask mem = masked_load_fallback merge mask mem) := by
  refine ⟨?_, ?_, ?_, ?_⟩
  · intro h1 h2
    rw [masked_load_fallback_eq 8 merge mask h1 h2, masked_load_8]
    exact masked_load_hw_eq 8 32 16 (by decide) (by decide) merge mask mem
  · intro h1 h2
    rw [masked_load_fallback_eq 16 merge mask h1 h2, masked_load_16]
    exact masked_load_hw_eq 16 32 16 (by decide) (by decide) merge mask mem
  · intro h1 h2
    rw [masked_load_fallback_eq 32 merge mask h1 h2, masked_load_32]
    exact masked_load_hw_eq 32 32 32 (by decide) (by decide) merge mask mem
  · intro h1 h2
    rw [masked_load_fallback_eq 64 merge mask h1 h2, masked_load_64]
    exact masked_load_hw_eq 64 64 64 (by decide) (by decide) merge mask mem

/-- Witness of C8: the 32-lane overload against the fallback. -/
theorem masked_load_paths_agree_witness :
    (0xDEADBEEF < 2 ^ 32 ∧ 0x0F0F1234 < 2 ^ 32) ∧
    masked_load_32 0xDEADBEEF 0x0F0F1234 (fun i => if i % 2 = 0 then 3 else 0)
      = masked_load_fallback 0xDEADBEEF 0x0F0F1234 (fun i => if i % 2 = 0 then 3 else 0) :=
  ⟨by decide,
    (masked_load_paths_agree 0xDEADBEEF 0x0F0F1234
      (fun i => if i % 2 = 0 then 3 else 0)).2.2.1 (by decide) (by decide)⟩

/-- C9. All store paths write the same bytes: for every 8-bit mask the three
8-lane paths (byte set-1, 64-bit bit deposit into `0x0101010101010101`, two
32-bit bit deposits of `v` and `v >> 4` into `0x01010101`) leave the same
buffer; for every mask the two 16-lane paths (byte set-1, 32-bit lanes of
0/1 truncated to bytes) leave the same buffer; and the two 32-lane paths
(256-bit set-1, low half of the 512-bit set-1) leave the same buffer. -/
theorem store_paths_agree (v : Nat) (mem : Mem) :
    (v < 2 ^ 8 →
      builtin_store 8 (_mm_maskz_set1_epi8 v 1) mem
        = builtin_store 8 (make_storage 64 [_pdep_u64 v 0x0101010101010101, 0]) mem ∧
      builtin_store 8 (_mm_maskz_set1_epi8 v 1) mem
        = builtin_store 8
            (make_storage 32 [_pdep_u32 v 0x01010101, _pdep_u32 (v >>> 4) 0x01010101]) mem ∧
      ∀ c c', store_8 c v mem = store_8 c' v mem) ∧
    (builtin_store 16 (_mm_maskz_set1_epi8 v 1) mem
        = _mm512_mask_cvtepi32_storeu_epi8 mem (bitNot 32 0 % 2 ^ 16)
            (_mm512_maskz_set1_epi32 v 1) ∧
      ∀ c c', store_16 c v mem = store_16 c' v mem) ∧
    (builtin_store 32 (_mm256_maskz_set1_epi8 v 1) mem
        = builtin_store 32 (lo256 (_mm512_maskz_set1_epi8 v 1)) mem ∧
      ∀ c c', store_32 c v mem = store_32 c' v mem) := by
  refine ⟨?_, ⟨?_, ?_⟩, ⟨?_, ?_⟩⟩
  · intro hv
    have h1 := store_8_eq ⟨true, true, true⟩ v hv mem
    have h2 := store_8_eq ⟨false, false, true⟩ v hv mem
    have h3 := store_8_eq ⟨false, false, false⟩ v hv mem
    refine ⟨?_, ?_, ?_⟩
    · exact h1.trans h2.symm
    · exact h1.trans h3.symm
    · intro c c'
      rw [store_8_eq c v hv, store_8_eq c' v hv]
  · have h1 := store_16_eq ⟨true, true, true⟩ v mem
    have h2 := store_16_eq ⟨false, false, true⟩ v mem
    exact h1.trans h2.symm
  · intro c c'
    rw [store_16_eq, store_16_eq]
  · have h1 := store_32_eq ⟨true, true, true⟩ v mem
    have h2 := store_32_eq ⟨false, true, true⟩ v mem
    exact h1.trans h2.symm
  · intro c c'
    rw [store_32_eq, store_32_eq]

/-- Witness of C9: the 8-bit mask `0xA5`. -/
theorem store_paths_agree_witness :
    (0xA5 < 2 ^ 8) ∧
      builtin_store 8 (_mm_maskz_set1_epi8 0xA5 1) (fun _ => 9)
        = builtin_store 8 (make_storage 64 [_pdep_u64 0xA5 0x0101010101010101, 0])
            (fun _ => 9) :=
  ⟨by decide, ((store_paths_agree 0xA5 (fun _ => 9)).1 (by decide)).1⟩

/-- C10. Masked-load identity: for every `N` in {8,16,32,64}, every `N`-bit
`merge` and every buffer, `masked_load(merge, all_false, mem)` returns
`merge`, on the hardware and on the fallback path. -/
theorem masked_load_identity (c : Caps) (N : Nat)
    (hN : N = 8 ∨ N = 16 ∨ N = 32 ∨ N = 64) (merge : Nat) (hmerge : merge < 2 ^ N)
    (mem : Mem) :
    masked_load c N merge 0 mem = some merge := by
  rw [masked_load_eq c N hN merge 0 hmerge (Nat.two_pow_pos N) mem]
  congr 1
  have : loadedMask N merge 0 mem = maskOf N (fun i => merge.testBit i) := by
    unfold loadedMask
    congr 1
    funext i
    simp
  rw [this, maskOf_testBit N merge hmerge]

/-- Witness of C10: 64 lanes on the hardware path. -/
theorem masked_load_identity_witness :
    (0x0123456789ABCDEF < 2 ^ 64) ∧
    masked_load ⟨true, true, true⟩ 64 0x0123456789ABCDEF 0 (fun _ => 1)
      = some 0x0123456789ABCDEF :=
  ⟨by decide,
    masked_load_identity ⟨true, true, true⟩ 64 (Or.inr (Or.inr (Or.inr rfl)))
      0x0123456789ABCDEF (by decide) (fun _ => 1)⟩

/-! ## Lemmas for the compound assignment, the converters and the scalar conversions -/

theorem pack_lane (w n x : Nat) (hw : 0 < w) :
    pack w n (fun j => lane w j x) = x % 2 ^ (w * n) := by
  apply Nat.eq_of_testBit_eq
  intro i
  rw [testBit_pack _ _ _ _ hw, testBit_lane, Nat.testBit_mod_two_pow]
  have h1 : i % w < w := Nat.mod_lt _ hw
  have h2 : w * (i / w) + i % w = i := Nat.div_add_mod i w
  have h3 : (i / w < n) ↔ (i < w * n) := by
    rw [Nat.mul_comm]; exact Nat.div_lt_iff_lt_mul hw
  rw [h2]
  by_cases h : i / w < n
  · simp [h, h1, h3.mp h]
  · have : ¬ i < w * n := fun h' => h (h3.mpr h')
    simp [h, this]

theorem suffix_register_bits (s : Suffix) : s.bits * (512 / s.bits) = 512 := by
  cases s <;> rfl

theorem mask_arith_all_false (fa : FloatArith) (op : Op) (s : Suffix) (lhs rhs : Nat)
    (hlhs : lhs < 2 ^ 512) :
    _mm512_mask_arith fa op s lhs 0 lhs rhs = lhs := by
  unfold _mm512_mask_arith
  simp only [Nat.zero_testBit, Bool.false_eq_true, if_false]
  rw [pack_lane _ _ _ s.bits_pos, suffix_register_bits]
  exact Nat.mod_eq_of_lt hlhs

theorem pack_congr (w n : Nat) (f g : Nat → Nat) (h : ∀ j, j < n → f j = g j) :
    pack w n f = pack w n g := by
  induction n with
  | zero => rfl
  | succ n ih =>
    unfold pack
    rw [ih (fun j hj => h j (Nat.lt_succ_of_lt hj)), h n (Nat.lt_succ_self n)]

theorem mask_arith_all_true (fa : FloatArith) (op : Op) (s : Suffix) (src a b : Nat) :
    _mm512_mask_arith fa op s src (2 ^ (512 / s.bits) - 1) a b
      = pack s.bits (512 / s.bits)
          (fun j => laneOp fa op s (lane s.bits j a) (lane s.bits j b)) := by
  unfold _mm512_mask_arith
  apply pack_congr
  intro j hj
  rw [Nat.testBit_two_pow_sub_one]
  simp [hj]

theorem lanewise_eq_of_suffix (fa : FloatArith) (full : Bool) (op : Op) (T : ElemType)
    (s : Suffix) (h : cassign_suffix full T = some s) (lhs rhs : Nat) :
    pack s.bits (512 / s.bits) (fun j => laneOp fa op s (lane s.bits j lhs) (lane s.bits j rhs))
      = lanewise fa op T lhs rhs := by
  obtain ⟨h1, h2, h3⟩ := cassign_suffix_sound fa full op T s h
  unfold lanewise
  rw [h2, h1, h3]

theorem lane_lanewise (fa : FloatArith) (full : Bool) (op : Op) (T : ElemType)
    (hT : (cassign_suffix full T).isSome = true) (lhs rhs i : Nat) (hi : i < simd_size T) :
    lane (laneBits T) i (lanewise fa op T lhs rhs)
      = applyOp fa op T (lane (laneBits T) i lhs) (lane (laneBits T) i rhs) := by
  cases hs : cassign_suffix full T with
  | none => rw [hs] at hT; exact absurd hT (by decide)
  | some s =>
    obtain ⟨h1, _, h3⟩ := cassign_suffix_sound fa full op T s hs
    unfold lanewise
    rw [lane_pack _ _ _ _ (by rw [← h1]; exact s.bits_pos), if_pos hi, ← h3, ← h1]
    exact Nat.mod_eq_of_lt (laneOp_lt fa op s _ _)

theorem accepts_iff_bounded :
    ∀ cv : Converter, cv ≠ .scalar_avx512 → ∀ n, n ≤ 64 → 2 ≤ n →
      ∀ sF ∈ [1, 2, 4, 8], ∀ sT ∈ [1, 2, 4, 8],
        (static_assert_cond cv n).isSome = true →
          (accepts cv n sF sT = true ↔ n * cv.src.lanes sF ≤ cv.dst.lanes sT) := by
  intro cv
  cases cv <;> decide

theorem accepts_eq_cond (cv : Converter) (n sF sT : Nat) (cond : Nat → Nat → Bool)
    (h : static_assert_cond cv n = some cond) : accepts cv n sF sT = cond sF sT := by
  unfold accepts
  rw [h]

theorem sizeof_mem (T : ElemType) : sizeof T ∈ [1, 2, 4, 8] := by
  cases T <;> decide

theorem accepts_one (cv : Converter) (sF sT : Nat) : accepts cv 1 sF sT = true := by
  cases cv <;> rfl

theorem exact_arity_bounded :
    ∀ cv : Converter, cv ≠ .scalar_avx512 →
      ∀ sF ∈ [1, 2, 4, 8], ∀ sT ∈ [1, 2, 4, 8],
        cv.dst.lanes sT % cv.src.lanes sF = 0 → 1 ≤ cv.dst.lanes sT / cv.src.lanes sF →
          (cv.dst.lanes sT / cv.src.lanes sF ∈ [1, 2, 4, 8, 16, 32]) ∧
          (static_assert_cond cv (cv.dst.lanes sT / cv.src.lanes sF)).isSome = true ∧
          accepts cv (cv.dst.lanes sT / cv.src.lanes sF) sF sT = true := by
  intro cv
  cases cv <;> decide

theorem laneBits_pos (T : ElemType) : 0 < laneBits T := by
  cases T <;> decide

theorem lane_set (w N r i x j : Nat) (hw : 0 < w) (hj : j < N) (hx : x < 2 ^ w) :
    lane w j (pack w N (fun t => if t = i then x else lane w t r))
      = if j = i then x else lane w j r := by
  rw [lane_pack _ _ _ _ hw, if_pos hj]
  by_cases h : j = i
  · simp only [h, if_true]; exact Nat.mod_eq_of_lt hx
  · simp only [h, if_false]; exact Nat.mod_eq_of_lt (lane_lt _ _ _)

theorem set_all_spec (To : ElemType) (sc : StaticCast To) :
    ∀ (xs : List Nat) (i r : Nat), i + xs.length ≤ simd_size To →
      ∃ r', set_all To sc xs i r = some r' ∧
        ∀ j, j < simd_size To →
          lane (laneBits To) j r' =
            if i ≤ j ∧ j < i + xs.length then sc.cast (xs.getD (j - i) 0)
            else lane (laneBits To) j r := by
  intro xs
  induction xs with
  | nil =>
    intro i r _
    refine ⟨r, rfl, ?_⟩
    intro j _
    have : ¬ (i ≤ j ∧ j < i + ([] : List Nat).length) := by
      simp
    rw [if_neg this]
  | cons x xs ih =>
    intro i r hlen
    have hlen' : i + (xs.length + 1) ≤ simd_size To := by simpa using hlen
    have hi : i < simd_size To := by omega
    unfold set_all simd_member_type.set
    rw [if_pos hi]
    obtain ⟨r', hr', hlanes⟩ := ih (i + 1)
      (pack (laneBits To) (simd_size To)
        (fun j => if j = i then sc.cast x else lane (laneBits To) j r)) (by omega)
    refine ⟨r', hr', ?_⟩
    intro j hj
    rw [hlanes j hj, lane_set _ _ _ _ _ _ (laneBits_pos To) hj (sc.cast_lt x)]
    by_cases h1 : j = i
    · subst h1
      have h2 : ¬ (j + 1 ≤ j ∧ j < j + 1 + xs.length) := by omega
      have h3 : j ≤ j ∧ j < j + (x :: xs).length := by
        simp
      rw [if_neg h2, if_pos h3, if_pos rfl]
      simp
    · by_cases h2 : i + 1 ≤ j ∧ j < i + 1 + xs.length
      · have h3 : i ≤ j ∧ j < i + (x :: xs).length := by
          simp only [List.length_cons]; omega
        rw [if_pos h2, if_pos h3]
        have h4 : j - i = (j - (i + 1)) + 1 := by omega
        rw [h4, List.getD_cons_succ]
      · have h3 : ¬ (i ≤ j ∧ j < i + (x :: xs).length) := by
          simp only [List.length_cons]; omega
        rw [if_neg h2, if_neg h3, if_neg h1]

theorem ieee_eq_zero_iff_32 (x : Nat) (hx : x < 2 ^ 32) :
    ieee_eq 32 23 x 0 = true ↔ IsSignedZero 32 x := by
  unfold IsSignedZero
  constructor
  · intro h
    simp only [ieee_eq, Bool.and_eq_true, Bool.or_eq_true, decide_eq_true_eq] at h
    norm_num at h hx ⊢
    omega
  · rintro (h | h) <;> subst h <;> decide

theorem ieee_eq_zero_iff_64 (x : Nat) (hx : x < 2 ^ 64) :
    ieee_eq 64 52 x 0 = true ↔ IsSignedZero 64 x := by
  unfold IsSignedZero
  constructor
  · intro h
    simp only [ieee_eq, Bool.and_eq_true, Bool.or_eq_true, decide_eq_true_eq] at h
    norm_num at h hx ⊢
    omega
  · rintro (h | h) <;> subst h <;> decide

theorem not_signedZero_of_nan_32 (x : Nat) (h : IsNaN 32 23 x) : ¬ IsSignedZero 32 x := by
  unfold IsNaN at h
  unfold IsSignedZero
  rintro (h0 | h0) <;> subst h0 <;> exact h.2 (by decide)

theorem not_signedZero_of_nan_64 (x : Nat) (h : IsNaN 64 52 x) : ¬ IsSignedZero 64 x := by
  unfold IsNaN at h
  unfold IsSignedZero
  rintro (h0 | h0) <;> subst h0 <;> exact h.2 (by decide)

theorem testBit_negate_float (x i : Nat) (hi : i < 16) :
    (negate .float x).testBit i = ieee_eq 32 23 (lane 32 i x) 0 := by
  unfold negate equal_to simd_member_type_zero
  rw [testBit_maskOf]
  have : i < simd_size .float := hi
  simp [this, lane_zero]

theorem testBit_negate_double (x i : Nat) (hi : i < 8) :
    (negate .double x).testBit i = ieee_eq 64 52 (lane 64 i x) 0 := by
  unfold negate equal_to simd_member_type_zero
  rw [testBit_maskOf]
  have : i < simd_size .double := hi
  simp [this, lane_zero]

/-! ## The claims, continued -/

/-- C11. Masked compound-assign identity: for `op` in {add, subtract}, every
element type `T` with a row in the table and all 512-bit registers `lhs`,
`rhs`, `masked_cassign(op, all_false, lhs, rhs)` leaves `lhs` bit-identical
to its prior value. -/
theorem masked_cassign_all_false (fa : FloatArith) (full : Bool) (op : Op) (T : ElemType)
    (hT : (cassign_suffix full T).isSome = true) (lhs rhs : Nat) (hlhs : lhs < 2 ^ 512) :
    masked_cassign fa full op T 0 lhs rhs = some lhs := by
  unfold masked_cassign
  cases hs : cassign_suffix full T with
  | none => rw [hs] at hT; exact absurd hT (by decide)
  | some s =>
    show some (_mm512_mask_arith fa op s lhs 0 lhs rhs) = some lhs
    rw [mask_arith_all_false fa op s lhs rhs hlhs]

set_option exponentiation.threshold 600 in
/-- Witness of C11: the `double` row, addition, on a register with two
non-zero lanes. -/
theorem masked_cassign_all_false_witness :
    ((cassign_suffix false .double).isSome = true ∧ 2 ^ 64 + 5 < 2 ^ 512) ∧
    masked_cassign zeroFloatArith false .plus .double 0 (2 ^ 64 + 5) 9 = some (2 ^ 64 + 5) :=
  ⟨by decide,
    masked_cassign_all_false zeroFloatArith false .plus .double rfl (2 ^ 64 + 5) 9
      (by decide)⟩

/-- C12. Masked compound-assign totality: for `op` in {add, subtract}, every
element type `T` with a row in the table and all registers `lhs`, `rhs`,
`masked_cassign(op, all_true, lhs, rhs)` leaves in `lhs` the unmasked
lane-wise `op(lhs, rhs)`: lane `i` is `op(lhs[i], rhs[i])` for every lane
`i` of the register. -/
theorem masked_cassign_all_true (fa : FloatArith) (full : Bool) (op : Op) (T : ElemType)
    (hT : (cassign_suffix full T).isSome = true) (lhs rhs : Nat) :
    masked_cassign fa full op T (2 ^ simd_size T - 1) lhs rhs
        = some (lanewise fa op T lhs rhs) ∧
      ∀ i, i < simd_size T →
        lane (laneBits T) i (lanewise fa op T lhs rhs)
          = applyOp fa op T (lane (laneBits T) i lhs) (lane (laneBits T) i rhs) := by
  refine ⟨?_, fun i hi => lane_lanewise fa full op T hT lhs rhs i hi⟩
  unfold masked_cassign
  cases hs : cassign_suffix full T with
  | none => rw [hs] at hT; exact absurd hT (by decide)
  | some s =>
    obtain ⟨_, h2, _⟩ := cassign_suffix_sound fa full op T s hs
    show some (_mm512_mask_arith fa op s lhs (2 ^ simd_size T - 1) lhs rhs) = _
    rw [← h2, mask_arith_all_true, lanewise_eq_of_suffix fa full op T s hs]

/-- Witness of C12: the `unsigned char` row under the full ABI, subtraction
with wrap-around in lane 0. -/
theorem masked_cassign_all_true_witness :
    (cassign_suffix true .uchar).isSome = true ∧
    (masked_cassign zeroFloatArith true .minus .uchar (2 ^ simd_size .uchar - 1) 3 5
        = some (lanewise zeroFloatArith .minus .uchar 3 5) ∧
      ∀ i, i < simd_size .uchar →
        lane (laneBits .uchar) i (lanewise zeroFloatArith .minus .uchar 3 5)
          = applyOp zeroFloatArith .minus .uchar (lane (laneBits .uchar) i 3)
              (lane (laneBits .uchar) i 5)) :=
  ⟨rfl, masked_cassign_all_true zeroFloatArith true .minus .uchar rfl 3 5⟩

/-- C13, as stated, fails in both directions. Four AVX sources of `double`
for one AVX-512 destination of `float` pass the `static_assert`
(`8 >= 2 * 4`) and fill the sixteen lanes exactly, while
`4 * 4 * 8 = 128` differs from `16 * 4 = 64`; two AVX sources of
`unsigned char` for a destination of `double` satisfy the formula
(`2 * 32 * 1 = 8 * 8`) and are rejected (`1 >= 1 * 8` is false); and the
one-argument overload, which has no `static_assert`, accepts an AVX source
of `float` for a destination of `float` (`1 * 8 * 4` against `16 * 4`). -/
theorem conversion_formula_counterexample :
    (accepts .avx_avx512 4 (sizeof .double) (sizeof .float) = true ∧
      4 * Converter.avx_avx512.src.lanes (sizeof .double) * sizeof .double
        ≠ Converter.avx_avx512.dst.lanes (sizeof .float) * sizeof .float) ∧
    (accepts .avx_avx512 2 (sizeof .uchar) (sizeof .double) = false ∧
      2 * Converter.avx_avx512.src.lanes (sizeof .uchar) * sizeof .uchar
        = Converter.avx_avx512.dst.lanes (sizeof .double) * sizeof .double) ∧
    (accepts .avx_avx512 1 (sizeof .float) (sizeof .float) = true ∧
      1 * Converter.avx_avx512.src.lanes (sizeof .float) * sizeof .float
        ≠ Converter.avx_avx512.dst.lanes (sizeof .float) * sizeof .float) := by
  decide

/-- C13, amended. For every register converter of `avx512.h`, every pair of
element types `From`, `To` and every arity `sourceCount >= 2` for which an
overload is declared, the call passes its `static_assert` if and only if
`sourceCount * sourceLanes <= destLanes`; a call of the one-argument
overload always passes, as that overload has no `static_assert`. -/
theorem conversion_well_formed_iff (cv : Converter) (hcv : cv ≠ .scalar_avx512)
    (From To : ElemType) :
    (∀ sourceCount, 2 ≤ sourceCount → (static_assert_cond cv sourceCount).isSome = true →
      (accepts cv sourceCount (sizeof From) (sizeof To) = true ↔
        sourceCount * cv.src.lanes (sizeof From) ≤ cv.dst.lanes (sizeof To))) ∧
    accepts cv 1 (sizeof From) (sizeof To) = true := by
  refine ⟨?_, accepts_one cv _ _⟩
  intro n hn hdecl
  have hn64 : n ≤ 64 := by
    cases hc : static_assert_cond cv n with
    | none => rw [hc] at hdecl; exact absurd hdecl (by decide)
    | some cond => exact static_assert_cond_arity cv n cond hc
  exact accepts_iff_bounded cv hcv n hn64 hn _ (sizeof_mem From) _ (sizeof_mem To) hdecl

/-- Witness of C13, amended: the AVX to AVX-512 converter from `double` to
`float`, arity 4. -/
theorem conversion_well_formed_iff_witness :
    Converter.avx_avx512 ≠ .scalar_avx512 ∧
    (accepts .avx_avx512 4 (sizeof .double) (sizeof .float) = true ↔
      4 * Converter.avx_avx512.src.lanes (sizeof .double)
        ≤ Converter.avx_avx512.dst.lanes (sizeof .float)) :=
  ⟨by decide,
    (conversion_well_formed_iff .avx_avx512 (by decide) .double .float).1 4 (by decide) rfl⟩

/-- C14. Bulk conversion to scalars preserves order and covers every lane:
for all element types `From`, `To` and every AVX-512 register `a` with
`W = 64 / sizeof(From)` lanes, `all(a)` returns a sequence of exactly `W`
values whose element `i` is `static_cast<To>(a[i])` for every `i < W`. -/
theorem all_preserves_order (From To : ElemType) (sc : StaticCast To) (a : Nat) :
    (avx512_to_scalar.all From To sc a).length = 64 / sizeof From ∧
      ∀ i, i < 64 / sizeof From →
        (avx512_to_scalar.all From To sc a)[i]? = some (sc.cast (lane (8 * sizeof From) i a)) := by
  unfold avx512_to_scalar.all avx512_to_scalar.impl make_index_sequence
  refine ⟨?_, ?_⟩
  · rw [List.length_map, List.length_range]; rfl
  · intro i hi
    have hi' : i < simd_size From := hi
    rw [List.getElem?_map, List.getElem?_range hi']
    rfl

/-- Witness of C14: the third of the sixteen lanes of a register of `int`
converted to `short`. -/
theorem all_preserves_order_witness :
    (2 < 64 / sizeof .int) ∧
    (avx512_to_scalar.all .int .short (truncCast .short)
        (make_storage 32 [10, 20, 30, 40]))[2]?
      = some ((truncCast .short).cast
          (lane (8 * sizeof .int) 2 (make_storage 32 [10, 20, 30, 40]))) :=
  ⟨by decide,
    (all_preserves_order .int .short (truncCast .short)
      (make_storage 32 [10, 20, 30, 40])).2 2 (by decide)⟩

/-- C15. Scalar-to-register conversion preserves lane order: for every arity
`n` in {1,2,4,8,16,32,64} with `n <= 64 / sizeof(To)` and all scalar
arguments `x0 .. x(n-1)`, `operator()(x0, ..., x(n-1))` returns a register
whose lane `i` is `static_cast<To>(xi)` for every `i < n`. -/
theorem scalar_conversion_preserves_order (To : ElemType) (sc : StaticCast To)
    (args : List Nat)
    (hn : args.length = 1 ∨ args.length = 2 ∨ args.length = 4 ∨ args.length = 8 ∨
      args.length = 16 ∨ args.length = 32 ∨ args.length = 64)
    (hle : args.length ≤ 64 / sizeof To) :
    ∃ r, scalar_to_avx512 To sc args = some r ∧
      ∀ i, i < args.length → lane (8 * sizeof To) i r = sc.cast (args.getD i 0) := by
  have hle' : args.length ≤ simd_size To := hle
  unfold scalar_to_avx512
  by_cases h64 : args.length = 64
  · have hsize : simd_size To = 64 := by
      have : simd_size To ≤ 64 := Nat.div_le_self 64 (sizeof To)
      omega
    rw [if_neg (by omega), if_pos h64, if_pos hsize]
    refine ⟨_, rfl, ?_⟩
    intro i hi
    show lane (laneBits To) i _ = _
    rw [lane_pack _ _ _ _ (laneBits_pos To), if_pos (by omega)]
    exact Nat.mod_eq_of_lt (sc.cast_lt _)
  · have hsmall : args.length = 1 ∨ args.length = 2 ∨ args.length = 4 ∨ args.length = 8 ∨
        args.length = 16 ∨ args.length = 32 := by omega
    rw [if_pos hsmall]
    obtain ⟨r, hr, hlanes⟩ := set_all_spec To sc args 0 0 (by omega)
    refine ⟨r, hr, ?_⟩
    intro i hi
    show lane (laneBits To) i r = _
    rw [hlanes i (by omega), if_pos ⟨Nat.zero_le _, by omega⟩, Nat.sub_zero]

/-- Witness of C15: four scalars into a register of sixteen `int` lanes. -/
theorem scalar_conversion_preserves_order_witness :
    ([7, 8, 9, 10].length = 4 ∧ [7, 8, 9, 10].length ≤ 64 / sizeof .int) ∧
    ∃ r, scalar_to_avx512 .int (truncCast .int) [7, 8, 9, 10] = some r ∧
      ∀ i, i < [7, 8, 9, 10].length →
        lane (8 * sizeof .int) i r = (truncCast .int).cast ([7, 8, 9, 10].getD i 0) :=
  ⟨by decide,
    scalar_conversion_preserves_order .int (truncCast .int) [7, 8, 9, 10]
      (Or.inr (Or.inr (Or.inl rfl))) (by decide)⟩

/-- C16. Self-conversion is the identity: for every AVX-512 register `x` of
any element type, the `operator()` of the same-type converter returns `x`
itself, so that every lane of every width is unchanged. -/
theorem self_conversion_identity (x : Nat) :
    avx512_identity x = x ∧ ∀ w i, lane w i (avx512_identity x) = lane w i x :=
  ⟨rfl, fun _ _ => rfl⟩

/-- C17. Negate on floating-point lanes follows IEEE-754 equality: for
`float` (sixteen lanes) and `double` (eight lanes) registers `x`, bit `i` of
`negate(x)` is set exactly when lane `i` is `+0.0` or `-0.0`; in particular
it is clear whenever lane `i` is a NaN of any payload and either sign. -/
theorem negate_float (x i : Nat) :
    (i < 16 →
      ((negate .float x).testBit i = true ↔ IsSignedZero 32 (lane 32 i x)) ∧
      (IsNaN 32 23 (lane 32 i x) → (negate .float x).testBit i = false)) ∧
    (i < 8 →
      ((negate .double x).testBit i = true ↔ IsSignedZero 64 (lane 64 i x)) ∧
      (IsNaN 64 52 (lane 64 i x) → (negate .double x).testBit i = false)) := by
  constructor
  · intro hi
    have key := ieee_eq_zero_iff_32 (lane 32 i x) (lane_lt 32 i x)
    rw [testBit_negate_float x i hi]
    refine ⟨key, ?_⟩
    intro hnan
    have := not_signedZero_of_nan_32 _ hnan
    cases hb : ieee_eq 32 23 (lane 32 i x) 0
    · rfl
    · exact absurd (key.mp hb) this
  · intro hi
    have key := ieee_eq_zero_iff_64 (lane 64 i x) (lane_lt 64 i x)
    rw [testBit_negate_double x i hi]
    refine ⟨key, ?_⟩
    intro hnan
    have := not_signedZero_of_nan_64 _ hnan
    cases hb : ieee_eq 64 52 (lane 64 i x) 0
    · rfl
    · exact absurd (key.mp hb) this

/-- Witness of C17: a `float` register whose lanes 0..3 hold `-0.0`, a quiet
NaN, `1.0` and a negative signalling NaN; lane 1. -/
theorem negate_float_witness :
    (1 < 16) ∧
    (((negate .float (make_storage 32 [0x80000000, 0x7FC00000, 0x3F800000, 0xFF800001])).testBit 1
        = true ↔
      IsSignedZero 32 (lane 32 1 (make_storage 32 [0x80000000, 0x7FC00000, 0x3F800000, 0xFF800001]))) ∧
    (IsNaN 32 23 (lane 32 1 (make_storage 32 [0x80000000, 0x7FC00000, 0x3F800000, 0xFF800001])) →
      (negate .float (make_storage 32 [0x80000000, 0x7FC00000, 0x3F800000, 0xFF800001])).testBit 1
        = false)) :=
  ⟨by decide,
    (negate_float (make_storage 32 [0x80000000, 0x7FC00000, 0x3F800000, 0xFF800001]) 1).1
      (by decide)⟩

/-- C18. The 8-lane `masked_store` never writes past the mask's lanes: for
every `v` and every 8-bit `k`, on each capability path (16-bit lanes of a
128-bit register, 32-bit lanes of a 256-bit register, 32-bit lanes of a
512-bit register with sixteen predicate bits) no byte at offset `>= 8` is
modified; and the 16-lane `masked_store`, on the fallback through 32-bit
lanes as on the byte path, modifies no byte at offset `>= 16`. -/
theorem masked_store_stays_in_bounds (c : Caps) (v k : Nat) (mem : Mem) :
    (k < 2 ^ 8 → ∀ i, 8 ≤ i → masked_store_8 c v mem k i = mem i) ∧
    (∀ i, 16 ≤ i → masked_store_16 c v mem k i = mem i) := by
  constructor
  · intro hk i hi
    have hbit : k.testBit i = false :=
      Nat.testBit_lt_two_pow
        (Nat.lt_of_lt_of_le hk (Nat.pow_le_pow_right (by decide) hi))
    unfold masked_store_8
    by_cases h1 : (c.avx512vl && c.avx512bw) = true
    · rw [if_pos h1]
      simp [_mm_mask_cvtepi16_storeu_epi8, mask_cvt_storeu_epi8, hbit]
    · rw [if_neg h1]
      by_cases h2 : c.avx512vl = true
      · rw [if_pos h2]
        simp [_mm256_mask_cvtepi32_storeu_epi8, mask_cvt_storeu_epi8, hbit]
      · rw [if_neg h2]
        simp [_mm512_mask_cvtepi32_storeu_epi8, mask_cvt_storeu_epi8, hbit]
  · intro i hi
    have hlt : ¬ i < 16 := by omega
    unfold masked_store_16
    by_cases h1 : (c.avx512vl && c.avx512bw) = true
    · rw [if_pos h1]
      simp [_mm_mask_storeu_epi8, mask_cvt_storeu_epi8, hlt]
    · rw [if_neg h1]
      simp [_mm512_mask_cvtepi32_storeu_epi8, mask_cvt_storeu_epi8, hlt]

/-- Witness of C18: the 512-bit path, `k = 0xFF`, byte 8. -/
theorem masked_store_stays_in_bounds_witness :
    (0xFF < 2 ^ 8) ∧
    masked_store_8 ⟨false, false, true⟩ 0xA5 (fun _ => 7) 0xFF 8 = (fun _ => (7 : Byte)) 8 :=
  ⟨by decide,
    (masked_store_stays_in_bounds ⟨false, false, true⟩ 0xA5 0xFF (fun _ => 7)).1 (by decide)
      8 (by decide)⟩

/-- C19. What the `static_assert`s decide: for each register converter
(SSE to AVX-512, AVX to AVX-512, AVX-512 to SSE, AVX-512 to AVX, AVX-512 to
AVX-512), each overload of arity `n >= 2` and all element sizes in
{1,2,4,8}, the condition of the overload's `static_assert` holds if and only
if `n * sourceLanes <= destinationLanes`. -/
theorem static_assert_iff_no_overfill (cv : Converter) (n sF sT : Nat)
    (cond : Nat → Nat → Bool) (hcv : cv ≠ .scalar_avx512) (hn : 2 ≤ n)
    (hsF : sF = 1 ∨ sF = 2 ∨ sF = 4 ∨ sF = 8) (hsT : sT = 1 ∨ sT = 2 ∨ sT = 4 ∨ sT = 8)
    (h : static_assert_cond cv n = some cond) :
    cond sF sT = true ↔ n * cv.src.lanes sF ≤ cv.dst.lanes sT := by
  have hn64 : n ≤ 64 := static_assert_cond_arity cv n cond h
  rw [← accepts_eq_cond cv n sF sT cond h]
  exact accepts_iff_bounded cv hcv n hn64 hn sF (by simp; tauto) sT (by simp; tauto)
    (by rw [h]; rfl)

/-- Witness of C19: the 32-argument overload of the SSE to AVX-512
converter, from 8-byte to 1-byte elements. -/
theorem static_assert_iff_no_overfill_witness :
    static_assert_cond .sse_avx512 32 = some (fun sF sT => decide (sF ≥ 8 * sT)) ∧
    ((fun sF sT => decide (sF ≥ 8 * sT)) 8 1 = true ↔
      32 * Converter.sse_avx512.src.lanes 8 ≤ Converter.sse_avx512.dst.lanes 1) :=
  ⟨rfl,
    static_assert_iff_no_overfill .sse_avx512 32 8 1 (fun sF sT => decide (sF ≥ 8 * sT))
      (by decide) (by decide) (by decide) (by decide) rfl⟩

/-- C20. The overload families are complete: for each register converter and
all element sizes in {1,2,4,8}, if the number `n = destinationLanes /
sourceLanes` of source registers that exactly fill one destination register
is a whole number `>= 1`, then `n` is one of 1, 2, 4, 8, 16, 32, the
converter declares an `operator()` of arity `n`, and a call of it passes the
compile-time assertions. -/
theorem overloads_complete (cv : Converter) (sF sT : Nat) (hcv : cv ≠ .scalar_avx512)
    (hsF : sF = 1 ∨ sF = 2 ∨ sF = 4 ∨ sF = 8) (hsT : sT = 1 ∨ sT = 2 ∨ sT = 4 ∨ sT = 8)
    (hwhole : cv.dst.lanes sT % cv.src.lanes sF = 0)
    (hpos : 1 ≤ cv.dst.lanes sT / cv.src.lanes sF) :
    (cv.dst.lanes sT / cv.src.lanes sF ∈ [1, 2, 4, 8, 16, 32]) ∧
      (static_assert_cond cv (cv.dst.lanes sT / cv.src.lanes sF)).isSome = true ∧
      accepts cv (cv.dst.lanes sT / cv.src.lanes sF) sF sT = true :=
  exact_arity_bounded cv hcv sF (by simp; tauto) sT (by simp; tauto) hwhole hpos

/-- Witness of C20: SSE sources of 8-byte elements for an AVX-512
destination of 1-byte elements, which needs 32 sources. -/
theorem overloads_complete_witness :
    (Converter.sse_avx512.dst.lanes 1 % Converter.sse_avx512.src.lanes 8 = 0 ∧
      Converter.sse_avx512.dst.lanes 1 / Converter.sse_avx512.src.lanes 8 = 32) ∧
    ((Converter.sse_avx512.dst.lanes 1 / Converter.sse_avx512.src.lanes 8
        ∈ [1, 2, 4, 8, 16, 32]) ∧
      (static_assert_cond .sse_avx512
        (Converter.sse_avx512.dst.lanes 1 / Converter.sse_avx512.src.lanes 8)).isSome = true ∧
      accepts .sse_avx512 (Converter.sse_avx512.dst.lanes 1 / Converter.sse_avx512.src.lanes 8)
        8 1 = true) :=
  ⟨by decide,
    overloads_complete .sse_avx512 8 1 (by decide) (by decide) (by decide) (by decide)
      (by decide)⟩

/-! ## Lemmas for the masked store, the integer rows and the accelerator stub -/

theorem testBit_false_of_lt (k N i : Nat) (hk : k < 2 ^ N) (hi : N ≤ i) : k.testBit i = false :=
  Nat.testBit_lt_two_pow (Nat.lt_of_lt_of_le hk (Nat.pow_le_pow_right (by decide) hi))

theorem mask_cvt_storeu_maskz_of_lt (w n lanes N : Nat) (hw : 0 < w) (hn : n ≤ lanes)
    (hN : N ≤ n) (mem : Mem) (k v : Nat) (hk : k < 2 ^ N) :
    mask_cvt_storeu_epi8 w n mem k (maskz_set1 w lanes v 1)
      = fun j => if k.testBit j = true then (if v.testBit j = true then 1 else 0) else mem j := by
  funext j
  rw [mask_cvt_storeu_maskz w n lanes hw hn]
  by_cases hb : k.testBit j = true
  · have hj : j < N := by
      by_contra h
      rw [testBit_false_of_lt k N j hk (by omega)] at hb
      exact absurd hb (by decide)
    have : j < n ∧ k.testBit j = true := ⟨by omega, hb⟩
    rw [if_pos this, if_pos hb]
  · have : ¬ (j < n ∧ k.testBit j = true) := fun h => hb h.2
    rw [if_neg this, if_neg hb]

theorem masked_store_32_without_vl (c : Caps) (hvl : c.avx512vl = false) (v k : Nat)
    (mem : Mem) : masked_store c 32 v mem k = none := by
  unfold masked_store
  rw [if_neg (by decide), if_neg (by decide), if_pos rfl, hvl]
  cases c.avx512bw <;> rfl

theorem masked_store_eq (c : Caps) (N : Nat) (hN : N = 8 ∨ N = 16 ∨ N = 32 ∨ N = 64)
    (hbw : N = 32 ∨ N = 64 → c.avx512bw = true) (hvl : N = 32 → c.avx512vl = true)
    (v k : Nat) (hk : k < 2 ^ N) (mem : Mem) :
    masked_store c N v mem k
      = some (fun j =>
          if k.testBit j = true then (if v.testBit j = true then 1 else 0) else mem j) := by
  unfold masked_store
  rcases hN with rfl | rfl | rfl | rfl
  · rw [if_pos rfl]
    congr 1
    unfold masked_store_8
    by_cases h1 : (c.avx512vl && c.avx512bw) = true
    · rw [if_pos h1]
      exact mask_cvt_storeu_maskz_of_lt 16 8 8 8 (by decide) (by decide) (by decide) mem k v hk
    · rw [if_neg h1]
      by_cases h2 : c.avx512vl = true
      · rw [if_pos h2]
        exact mask_cvt_storeu_maskz_of_lt 32 8 8 8 (by decide) (by decide) (by decide) mem k v hk
      · rw [if_neg h2]
        exact mask_cvt_storeu_maskz_of_lt 32 16 16 8 (by decide) (by decide) (by decide)
          mem k v hk
  · rw [if_neg (by decide), if_pos rfl]
    congr 1
    unfold masked_store_16
    by_cases h1 : (c.avx512vl && c.avx512bw) = true
    · rw [if_pos h1]
      exact mask_cvt_storeu_maskz_of_lt 8 16 16 16 (by decide) (by decide) (by decide)
        mem k v hk
    · rw [if_neg h1]
      exact mask_cvt_storeu_maskz_of_lt 32 16 16 16 (by decide) (by decide) (by decide)
        mem k v hk
  · rw [if_neg (by decide), if_neg (by decide), if_pos rfl, if_pos (hbw (Or.inl rfl)),
      if_pos (hvl rfl)]
    congr 1
    unfold masked_store_32
    by_cases h1 : c.avx512vl = true
    · rw [if_pos h1]
      exact mask_cvt_storeu_maskz_of_lt 8 32 32 32 (by decide) (by decide) (by decide)
        mem k v hk
    · rw [if_neg h1]
      funext j
      unfold _mm256_mask_storeu_epi8 mask_cvt_storeu_epi8 lo256 _mm512_maskz_set1_epi8
      by_cases hb : k.testBit j = true
      · have hj : j < 32 := by
          by_contra h
          rw [testBit_false_of_lt k 32 j hk (by omega)] at hb
          exact absurd hb (by decide)
        rw [if_pos ⟨hj, hb⟩, if_pos hb, lane_mod_two_pow 8 j 256 _ (by omega),
          lane_maskz_set1 8 64 v j (by decide) (by omega), toByte_bit]
      · have : ¬ (j < 32 ∧ k.testBit j = true) := fun h => hb h.2
        rw [if_neg this, if_neg hb]
  · rw [if_neg (by decide), if_neg (by decide), if_neg (by decide), if_pos rfl,
      if_pos (hbw (Or.inr rfl))]
    congr 1
    exact mask_cvt_storeu_maskz_of_lt 8 64 64 64 (by decide) (by decide) (by decide)
      mem k v hk

theorem wrapSub_int (w x y : Nat) (hy : y < 2 ^ w) :
    ((wrapSub w x y : Nat) : Int) = ((x : Int) - (y : Int)) % (2 : Int) ^ w := by
  unfold wrapSub
  rw [Nat.mod_eq_of_lt hy]
  have h1 : ((x + (2 ^ w - y) : Nat) : Int) = ((x : Int) - (y : Int)) + (2 : Int) ^ w := by
    rw [Nat.cast_add, Nat.cast_sub (Nat.le_of_lt hy)]
    push_cast
    ring
  rw [Int.natCast_mod, h1]
  push_cast
  rw [Int.add_emod_self]

theorem cassign_suffix_unsignedOf (full : Bool) (T : ElemType) :
    cassign_suffix full (unsignedOf T) = cassign_suffix full T := by
  cases T <;> rfl

namespace CUDA

theorem memcpy_of_le (dst src : Buffer) (n : Nat) (h1 : n ≤ dst.length) (h2 : n ≤ src.length) :
    memcpy dst src n = some (src.take n ++ dst.drop n) := by
  unfold memcpy
  rw [if_pos ⟨h1, h2⟩]

theorem memcpy_of_dst_lt (dst src : Buffer) (n : Nat) (h : dst.length < n) :
    memcpy dst src n = none := by
  unfold memcpy
  rw [if_neg (fun hc => absurd hc.1 (by omega))]

theorem memcpy_of_src_lt (dst src : Buffer) (n : Nat) (h : src.length < n) :
    memcpy dst src n = none := by
  unfold memcpy
  rw [if_neg (fun hc => absurd hc.2 (by omega))]

theorem load_some (Size : Nat) (v : Vector) (src : Buffer) :
    Vector.load Size v (some src)
      = (memcpy v.m_data src (sizeof_float * Size)).map Vector.mk := by
  unfold Vector.load ne_nullptr
  simp only [Option.isSome_some, if_true]
  cases memcpy v.m_data src (sizeof_float * Size) <;> rfl

theorem store_some (Size : Nat) (v : Vector) (dst : Buffer) :
    Vector.store Size v (some dst)
      = (memcpy dst v.m_data (sizeof_float * Size)).map some := by
  unfold Vector.store ne_nullptr Vector.m_data_ptr
  simp only [Option.isSome_some, if_true]
  cases memcpy dst v.m_data (sizeof_float * Size) <;> rfl

theorem mul_size_lt (a b Size : Nat) (h : a < b) (hS : 0 < Size) : a * Size < b * Size :=
  Nat.mul_lt_mul_of_pos_right h hS

end CUDA

/-! ## The claims, concluded -/

/-- C21. A masked store under an all-true predicate is a plain store: for
every `N` in {8,16,32,64} (the 32- and 64-lane overloads exist under
`Vc_HAVE_AVX512BW`, and the 32-lane `masked_store` builds only with
`Vc_HAVE_AVX512VL` as well), every `N`-bit mask `v` and every initial
buffer, `masked_store(v, mem, all_true)` and `store(v, mem)` both return,
and return the same buffer, whichever of the branches that build are
compiled. -/
theorem masked_store_all_true_eq_store (c c' : Caps) (N : Nat)
    (hN : N = 8 ∨ N = 16 ∨ N = 32 ∨ N = 64)
    (hbw : N = 32 ∨ N = 64 → c.avx512bw = true)
    (hvl : N = 32 → c.avx512vl = true)
    (hbw' : N = 32 ∨ N = 64 → c'.avx512bw = true)
    (v : Nat) (hv : v < 2 ^ N) (mem : Mem) :
    ∃ mem', masked_store c N v mem (2 ^ N - 1) = some mem' ∧ store c' N v mem = some mem' := by
  have hall : 2 ^ N - 1 < 2 ^ N := Nat.sub_lt (Nat.two_pow_pos N) Nat.one_pos
  refine ⟨storedBytes N v mem, ?_, store_eq c' N hN hbw' v hv mem⟩
  rw [masked_store_eq c N hN hbw hvl v (2 ^ N - 1) hall mem]
  congr 1
  funext j
  rw [Nat.testBit_two_pow_sub_one]
  unfold storedBytes
  by_cases hj : j < N <;> simp [hj]

/-- Witness of C21: 32 lanes, the masked store with `AVX512VL` against the
plain store through the low half of the 512-bit register. -/
theorem masked_store_all_true_eq_store_witness :
    (0xDEADBEEF < 2 ^ 32) ∧
    ∃ mem', masked_store ⟨true, true, true⟩ 32 0xDEADBEEF (fun _ => 9) (2 ^ 32 - 1)
        = some mem' ∧
      store ⟨false, true, true⟩ 32 0xDEADBEEF (fun _ => 9) = some mem' :=
  ⟨by decide,
    masked_store_all_true_eq_store ⟨true, true, true⟩ ⟨false, true, true⟩ 32
      (Or.inr (Or.inr (Or.inl rfl))) (fun _ => rfl) (fun _ => rfl) (fun _ => rfl)
      0xDEADBEEF (by decide) (fun _ => 9)⟩

/-- C22. `masked_load` ignores unselected memory: for every `N` in
{8,16,32,64}, all `N`-bit `merge` and `mask`, and any two buffers that agree
on whether the byte is non-zero at every lane `i < N` whose bit in `mask` is
set, `masked_load` returns, and returns the same mask for both buffers. -/
theorem masked_load_ignores_unselected (c : Caps) (N : Nat)
    (hN : N = 8 ∨ N = 16 ∨ N = 32 ∨ N = 64) (merge mask : Nat)
    (hmerge : merge < 2 ^ N) (hmask : mask < 2 ^ N) (mem1 mem2 : Mem)
    (hagree : ∀ i, i < N → mask.testBit i = true → (mem1 i ≠ 0 ↔ mem2 i ≠ 0)) :
    ∃ r, masked_load c N merge mask mem1 = some r ∧ masked_load c N merge mask mem2 = some r := by
  refine ⟨loadedMask N merge mask mem1, masked_load_eq c N hN merge mask hmerge hmask mem1, ?_⟩
  rw [masked_load_eq c N hN merge mask hmerge hmask mem2]
  congr 1
  apply Nat.eq_of_testBit_eq
  intro i
  rw [loadedMask, loadedMask, testBit_maskOf, testBit_maskOf]
  by_cases hi : i < N
  · by_cases hb : mask.testBit i = true
    · simp only [hi, hb, if_true, decide_True, Bool.true_and]
      exact (decide_eq_decide.mpr (hagree i hi hb)).symm
    · simp [hi, hb]
  · simp [hi]

/-- Witness of C22: 8 lanes on the hardware path, two buffers that differ in
the unselected lanes and in the non-zero values of the selected ones. -/
theorem masked_load_ignores_unselected_witness :
    (0xF0 < 2 ^ 8 ∧ 0x01 < 2 ^ 8) ∧
    ∃ r, masked_load ⟨true, true, true⟩ 8 0xF0 0x01 (fun i => if i = 0 then 1 else 0) = some r ∧
      masked_load ⟨true, true, true⟩ 8 0xF0 0x01 (fun _ => 200) = some r :=
  ⟨by decide,
    masked_load_ignores_unselected ⟨true, true, true⟩ 8 (Or.inl rfl) 0xF0 0x01
      (by decide) (by decide) (fun i => if i = 0 then 1 else 0) (fun _ => 200)
      (by
        intro i hi hb
        have h0 : i = 0 := by
          rcases Nat.eq_zero_or_pos i with h | h
          · exact h
          · exfalso
            have : Nat.testBit 1 i = false :=
              Nat.testBit_lt_two_pow (Nat.lt_of_lt_of_le (by decide : 1 < 2 ^ 1)
                (Nat.pow_le_pow_right (by decide) h))
            rw [this] at hb
            exact absurd hb (by decide)
        subst h0
        decide)⟩

/-- C23. Partial scalar-to-register conversion zero-fills: for every arity
`n` in {1,2,4,8,16,32} with `n < 64 / sizeof(To)`, `operator()(x0, ...,
x(n-1))` has a defined result, which means that every index passed to
`set()` is below the lane count `64 / sizeof(To)`, and in the register it
returns every lane at an index `>= n` is zero. -/
theorem scalar_conversion_zero_fills (To : ElemType) (sc : StaticCast To) (args : List Nat)
    (hn : args.length = 1 ∨ args.length = 2 ∨ args.length = 4 ∨ args.length = 8 ∨
      args.length = 16 ∨ args.length = 32)
    (hlt : args.length < 64 / sizeof To) :
    (∃ r, scalar_to_avx512 To sc args = some r ∧
      ∀ j, args.length ≤ j → j < 64 / sizeof To → lane (8 * sizeof To) j r = 0) ∧
    (∀ i r x, i < args.length →
      (simd_member_type.set (8 * sizeof To) (64 / sizeof To) r i x).isSome = true) := by
  have hlt' : args.length < simd_size To := hlt
  constructor
  · unfold scalar_to_avx512
    rw [if_pos hn]
    obtain ⟨r, hr, hlanes⟩ := set_all_spec To sc args 0 0 (by omega)
    refine ⟨r, hr, ?_⟩
    intro j hj hjN
    show lane (laneBits To) j r = 0
    have : ¬ (0 ≤ j ∧ j < 0 + args.length) := by omega
    rw [hlanes j hjN, if_neg this, lane_zero]
  · intro i r x hi
    unfold simd_member_type.set
    have : i < 64 / sizeof To := by omega
    rw [if_pos this]
    rfl

/-- Witness of C23: two scalars into a register of eight `double` lanes. -/
theorem scalar_conversion_zero_fills_witness :
    ([3, 4].length = 2 ∧ [3, 4].length < 64 / sizeof .double) ∧
    ∃ r, scalar_to_avx512 .double (truncCast .double) [3, 4] = some r ∧
      ∀ j, [3, 4].length ≤ j → j < 64 / sizeof .double → lane (8 * sizeof .double) j r = 0 :=
  ⟨by decide,
    (scalar_conversion_zero_fills .double (truncCast .double) [3, 4] (Or.inr (Or.inl rfl))
      (by decide)).1⟩

/-- C24. Integer masked add/subtract wraps and is sign-agnostic: for every
integer element type `T` with a row in the table (64 and 32 bits, and 16 and
8 bits under the full-ABI flag), every mask `k` and registers `lhs`, `rhs`,
`masked_cassign` returns a register whose selected lanes are
`(lhs[i] + rhs[i]) mod 2^w` for add and `(lhs[i] - rhs[i]) mod 2^w` for
subtract, `w` the width of `T`; and the specialisation for `T` and the one
for the unsigned type of the same width return the same register for the
same inputs. -/
theorem masked_cassign_wraps (fa : FloatArith) (full : Bool) (T : ElemType)
    (hint : T.isFloat = false) (hT : (cassign_suffix full T).isSome = true)
    (k lhs rhs : Nat) :
    (∃ r, masked_cassign fa full .plus T k lhs rhs = some r ∧
      ∀ i, i < simd_size T → k.testBit i = true →
        lane (laneBits T) i r
          = (lane (laneBits T) i lhs + lane (laneBits T) i rhs) % 2 ^ laneBits T) ∧
    (∃ r, masked_cassign fa full .minus T k lhs rhs = some r ∧
      ∀ i, i < simd_size T → k.testBit i = true →
        ((lane (laneBits T) i r : Nat) : Int)
          = ((lane (laneBits T) i lhs : Int) - (lane (laneBits T) i rhs : Int))
              % (2 : Int) ^ laneBits T) ∧
    (∀ op, masked_cassign fa full op T k lhs rhs
      = masked_cassign fa full op (unsignedOf T) k lhs rhs) := by
  cases hs : cassign_suffix full T with
  | none => rw [hs] at hT; exact absurd hT (by decide)
  | some s =>
    have hplus := cassign_suffix_sound fa full .plus T s hs
    have hminus := cassign_suffix_sound fa full .minus T s hs
    have happ_plus : applyOp fa .plus T = wrapAdd (laneBits T) := by
      cases T <;> first | exact absurd hint (by decide) | rfl
    have happ_minus : applyOp fa .minus T = wrapSub (laneBits T) := by
      cases T <;> first | exact absurd hint (by decide) | rfl
    refine ⟨⟨_mm512_mask_arith fa .plus s lhs k lhs rhs, ?_, ?_⟩,
      ⟨_mm512_mask_arith fa .minus s lhs k lhs rhs, ?_, ?_⟩, ?_⟩
    · unfold masked_cassign; rw [hs]
    · intro i hi hb
      obtain ⟨h1, h2, h3⟩ := hplus
      rw [← h1, lane_mask_arith fa .plus s lhs k lhs rhs i (by rw [h2]; exact hi), if_pos hb,
        h3, happ_plus, h1]
      rfl
    · unfold masked_cassign; rw [hs]
    · intro i hi hb
      obtain ⟨h1, h2, h3⟩ := hminus
      rw [← h1, lane_mask_arith fa .minus s lhs k lhs rhs i (by rw [h2]; exact hi), if_pos hb,
        h3, happ_minus, h1]
      exact wrapSub_int _ _ _ (lane_lt _ _ _)
    · intro op
      unfold masked_cassign
      rw [cassign_suffix_unsignedOf]

/-- Witness of C24: the `int` row, lane 0 selected, with wrap-around. -/
theorem masked_cassign_wraps_witness :
    (ElemType.int.isFloat = false ∧ (cassign_suffix false .int).isSome = true) ∧
    (∃ r, masked_cassign zeroFloatArith false .plus .int 1 0xFFFFFFFF 1 = some r ∧
      ∀ i, i < simd_size .int → Nat.testBit 1 i = true →
        lane (laneBits .int) i r
          = (lane (laneBits .int) i 0xFFFFFFFF + lane (laneBits .int) i 1)
              % 2 ^ laneBits .int) :=
  ⟨by decide,
    (masked_cassign_wraps zeroFloatArith false .int rfl rfl 1 0xFFFFFFFF 1).1⟩

/-- C25. Null-pointer guards of the accelerator stub: `load(mem)` with a null
`mem` performs no copy and returns the vector as it was, and with a non-null
`mem` it is the `memcpy` into `m_data`; the guard of `store(mem)`,
`m_data != nullptr` on the array member, is true for every vector, so that
`store` is the `memcpy` from `m_data` for every non-null `mem` and attempts
the copy, with undefined behaviour, for the null `mem` as well. -/
theorem cuda_null_guards (Size : Nat) (v : CUDA.Vector) :
    CUDA.Vector.load Size v none = some v ∧
    (∀ src, CUDA.Vector.load Size v (some src)
      = (CUDA.memcpy v.m_data src (CUDA.sizeof_float * Size)).map CUDA.Vector.mk) ∧
    CUDA.ne_nullptr v.m_data_ptr = true ∧
    (∀ dst, CUDA.Vector.store Size v (some dst)
      = (CUDA.memcpy dst v.m_data (CUDA.sizeof_float * Size)).map some) ∧
    CUDA.Vector.store Size v none = none :=
  ⟨rfl, CUDA.load_some Size v, rfl, CUDA.store_some Size v, rfl⟩

/-- C26. Copy length of the accelerator stub: `load` and `store` copy
`sizeof(float) * CUDA_VECTOR_SIZE` bytes whatever `sizeof(T)` is: a defined
`load` replaces exactly that many leading bytes of `m_data` and a defined
`store` exactly that many leading bytes of the destination. Hence, for
`sizeof(T) = sz > 0` and `CUDA_VECTOR_SIZE = Size > 0`: a load from a buffer
of at least `Size` elements sets `m_data` to the first `Size` elements, for
all vectors and buffers, if and only if `sz = sizeof(float)`; when `sz` is
larger the load replaces only the first `sizeof(float) * Size` bytes, a
proper prefix of the array, and keeps the rest; when `sz` is smaller the
copy is longer than `Size` elements, so it reads past the first `Size`
elements of `mem` (and past the end of `m_data`) and has no defined result. -/
theorem cuda_copy_length (sz Size : Nat) (hsz : 0 < sz) (hSize : 0 < Size) :
    (∀ (v v' : CUDA.Vector) (src : CUDA.Buffer),
      CUDA.Vector.load Size v (some src) = some v' →
        v'.m_data.take (CUDA.sizeof_float * Size) = src.take (CUDA.sizeof_float * Size) ∧
        v'.m_data.drop (CUDA.sizeof_float * Size) = v.m_data.drop (CUDA.sizeof_float * Size) ∧
        (src.take (CUDA.sizeof_float * Size)).length = CUDA.sizeof_float * Size) ∧
    (∀ (v : CUDA.Vector) (dst dst' : CUDA.Buffer),
      CUDA.Vector.store Size v (some dst) = some (some dst') →
        dst'.take (CUDA.sizeof_float * Size) = v.m_data.take (CUDA.sizeof_float * Size) ∧
        dst'.drop (CUDA.sizeof_float * Size) = dst.drop (CUDA.sizeof_float * Size) ∧
        (v.m_data.take (CUDA.sizeof_float * Size)).length = CUDA.sizeof_float * Size) ∧
    ((∀ (v : CUDA.Vector) (src : CUDA.Buffer),
        v.m_data.length = sz * Size → sz * Size ≤ src.length →
          CUDA.Vector.load Size v (some src) = some ⟨src.take (sz * Size)⟩)
      ↔ sz = CUDA.sizeof_float) ∧
    (CUDA.sizeof_float < sz →
      ∀ (v : CUDA.Vector) (src : CUDA.Buffer),
        v.m_data.length = sz * Size → sz * Size ≤ src.length →
          CUDA.sizeof_float * Size < sz * Size ∧
          CUDA.Vector.load Size v (some src)
            = some ⟨src.take (CUDA.sizeof_float * Size)
                ++ v.m_data.drop (CUDA.sizeof_float * Size)⟩) ∧
    (sz < CUDA.sizeof_float →
      ∀ (v : CUDA.Vector) (src : CUDA.Buffer),
        v.m_data.length = sz * Size →
          sz * Size < CUDA.sizeof_float * Size ∧
          CUDA.Vector.load Size v (some src) = none) := by
  have hlarger : CUDA.sizeof_float < sz →
      ∀ (v : CUDA.Vector) (src : CUDA.Buffer),
        v.m_data.length = sz * Size → sz * Size ≤ src.length →
          CUDA.sizeof_float * Size < sz * Size ∧
          CUDA.Vector.load Size v (some src)
            = some ⟨src.take (CUDA.sizeof_float * Size)
                ++ v.m_data.drop (CUDA.sizeof_float * Size)⟩ := by
    intro hlt v src hv hsrc
    have h := CUDA.mul_size_lt _ _ Size hlt hSize
    refine ⟨h, ?_⟩
    rw [CUDA.load_some, CUDA.memcpy_of_le _ _ _ (by omega) (by omega)]
    rfl
  have hsmaller : sz < CUDA.sizeof_float →
      ∀ (v : CUDA.Vector) (src : CUDA.Buffer),
        v.m_data.length = sz * Size →
          sz * Size < CUDA.sizeof_float * Size ∧
          CUDA.Vector.load Size v (some src) = none := by
    intro hlt v src hv
    have h := CUDA.mul_size_lt _ _ Size hlt hSize
    refine ⟨h, ?_⟩
    rw [CUDA.load_some, CUDA.memcpy_of_dst_lt _ _ _ (by omega)]
    rfl
  refine ⟨?_, ?_, ?_, hlarger, hsmaller⟩
  · intro v v' src h
    rw [CUDA.load_some] at h
    unfold CUDA.memcpy at h
    by_cases hc : CUDA.sizeof_float * Size ≤ v.m_data.length ∧
        CUDA.sizeof_float * Size ≤ src.length
    · rw [if_pos hc] at h
      simp only [Option.map_some', Option.some.injEq] at h
      have hlen : (src.take (CUDA.sizeof_float * Size)).length = CUDA.sizeof_float * Size := by
        rw [List.length_take]; omega
      subst h
      refine ⟨?_, ?_, hlen⟩
      · rw [List.take_left' hlen]
      · rw [List.drop_left' hlen]
    · rw [if_neg hc] at h
      simp at h
  · intro v dst dst' h
    rw [CUDA.store_some] at h
    unfold CUDA.memcpy at h
    by_cases hc : CUDA.sizeof_float * Size ≤ dst.length ∧
        CUDA.sizeof_float * Size ≤ v.m_data.length
    · rw [if_pos hc] at h
      simp only [Option.map_some', Option.some.injEq] at h
      have hlen : (v.m_data.take (CUDA.sizeof_float * Size)).length
          = CUDA.sizeof_float * Size := by
        rw [List.length_take]; omega
      subst h
      refine ⟨?_, ?_, hlen⟩
      · rw [List.take_left' hlen]
      · rw [List.drop_left' hlen]
    · rw [if_neg hc] at h
      simp at h
  · constructor
    · intro hall
      by_contra hne
      rcases Nat.lt_or_gt_of_ne hne with hlt | hgt
      · have h1 := hall ⟨List.replicate (sz * Size) 0⟩
          (List.replicate (CUDA.sizeof_float * Size) 0) (by simp)
          (by simp; exact Nat.le_of_lt (CUDA.mul_size_lt _ _ Size hlt hSize))
        rw [(hsmaller hlt ⟨List.replicate (sz * Size) 0⟩ _ (by simp)).2] at h1
        exact absurd h1 (by simp)
      · have h1 := hall ⟨List.replicate (sz * Size) 0⟩ (List.replicate (sz * Size) 1)
          (by simp) (by simp)
        obtain ⟨hlen, h2⟩ := hlarger hgt ⟨List.replicate (sz * Size) 0⟩
          (List.replicate (sz * Size) 1) (by simp) (by simp)
        rw [h2] at h1
        simp only [Option.some.injEq, CUDA.Vector.mk.injEq] at h1
        have h3 := congrArg (List.drop (CUDA.sizeof_float * Size)) h1
        have hl : (List.take (CUDA.sizeof_float * Size) (List.replicate (sz * Size) (1 : Byte))).length
            = CUDA.sizeof_float * Size := by
          rw [List.length_take, List.length_replicate]; omega
        rw [List.drop_left' hl, List.take_replicate, List.drop_replicate, List.drop_replicate,
          Nat.min_self] at h3
        have hpos : sz * Size - CUDA.sizeof_float * Size ≠ 0 := by omega
        have := (List.replicate_right_inj hpos).mp h3
        exact absurd this (by decide)
    · intro heq v src hv hsrc
      subst heq
      rw [CUDA.load_some, CUDA.memcpy_of_le _ _ _ (by omega) (by omega)]
      have : v.m_data.drop (CUDA.sizeof_float * Size) = [] := by
        rw [List.drop_eq_nil_iff]; omega
      rw [this, List.append_nil]
      rfl

/-- Witness of C26: `sizeof(T) = 8`, `CUDA_VECTOR_SIZE = 1`: the load from a
buffer of one element replaces four of the eight bytes. -/
theorem cuda_copy_length_witness :
    (0 < 8 ∧ 0 < 1 ∧ CUDA.sizeof_float < 8) ∧
    (CUDA.sizeof_float * 1 < 8 * 1 ∧
      CUDA.Vector.load 1 ⟨[0, 0, 0, 0, 0, 0, 0, 0]⟩ (some [1, 2, 3, 4, 5, 6, 7, 8])
        = some ⟨List.take (CUDA.sizeof_float * 1) [1, 2, 3, 4, 5, 6, 7, 8]
            ++ List.drop (CUDA.sizeof_float * 1) [0, 0, 0, 0, 0, 0, 0, 0]⟩) :=
  ⟨by decide,
    (cuda_copy_length 8 1 (by decide) (by decide)).2.2.2.1 (by decide)
      ⟨[0, 0, 0, 0, 0, 0, 0, 0]⟩ [1, 2, 3, 4, 5, 6, 7, 8] rfl (by decide)⟩

end Vc
